import Mathlib

/-!
Formal model of the sign-in sheet reconciliation script
(src/textract_to_ddb.py): table reconstruction from flat OCR blocks
(parse_first_table) and identity reconciliation (the per-row matching loop
of process), with the string-similarity function modelled faithfully on
Python difflib.SequenceMatcher (including the autojunk heuristic).
Python floats are idealised as exact rationals.
-/

namespace SignSheet

/-- Python str.strip() whitespace characters (ASCII range). -/
def isPySpace (c : Char) : Bool :=
  c == ' ' || c == '\t' || c == '\n' || c == '\r' || c == '\x0b' || c == '\x0c'

/-- Strip leading and trailing whitespace from a character list. -/
def stripChars (l : List Char) : List Char :=
  ((l.dropWhile isPySpace).reverse.dropWhile isPySpace).reverse

/-- Python str.strip(). -/
def pyStrip (s : String) : String := String.mk (stripChars s.toList)

/-- Python str.lower() on the ASCII range. -/
def lowerChar (c : Char) : Char :=
  if 65 ≤ c.toNat ∧ c.toNat ≤ 90 then Char.ofNat (c.toNat + 32) else c

/-- Python str.lower(). -/
def pyLower (s : String) : String := String.mk (s.toList.map lowerChar)

/-- Python s.replace(" ", ""): remove every space. -/
def removeSpaces (s : String) : String :=
  String.mk (s.toList.filter (fun c => !(c == ' ')))

/-- Python " ".join: interleave a single space between the fragments. -/
def joinSpace : List String → List Char
  | [] => []
  | [s] => s.toList
  | s :: rest => s.toList ++ ' ' :: joinSpace rest

/-- Relationship entry of a block: a type tag and a list of child ids. -/
structure Rel where
  type : String
  ids : List String
deriving Repr, DecidableEq

/-- OCR block: a Textract block dictionary restricted to the fields the
script reads, with the dictionary-get defaults baked in. -/
structure Block where
  id : Option String := none
  blockType : String := ""
  text : String := ""
  selectionStatus : String := ""
  rowIndex : Int := 0
  columnIndex : Int := 0
  relationships : List Rel := []
deriving Repr, DecidableEq

/-- Lookup in the id-to-block dictionary. The Python dict comprehension
lets later blocks with the same id overwrite earlier ones, so lookup
returns the last matching block. -/
def idGet (blocks : List Block) (cid : String) : Option Block :=
  (blocks.filter (fun b => b.id == some cid)).getLast?

/-- Cell-text extraction (_text_from): collect the text of WORD children
and a literal marker for SELECTED selection marks, over the CHILD
relationships, skipping unresolved ids. -/
def childFragments (blocks : List Block) (blk : Block) : List String :=
  (blk.relationships.filter (fun rel => rel.type == "CHILD")).flatMap (fun rel =>
    rel.ids.filterMap (fun cid =>
      match idGet blocks cid with
      | none => none
      | some wb =>
        if wb.blockType == "WORD" then some wb.text
        else if wb.blockType == "SELECTION_ELEMENT" && wb.selectionStatus == "SELECTED" then
          some "[X]"
        else none))

/-- Join the non-empty fragments with single spaces and trim (_text_from). -/
def text_from (blocks : List Block) (blk : Block) : String :=
  pyStrip (String.mk (joinSpace ((childFragments blocks blk).filter (fun t => t != ""))))

/-- First block of variant TABLE, in input order. -/
def firstTable (blocks : List Block) : Option Block :=
  blocks.find? (fun b => b.blockType == "TABLE")

/-- The ((row, column), text) cell entries of the table block, in the
order the script encounters them (CELL children of the table). -/
def tableCells (blocks : List Block) (tbl : Block) : List ((Int × Int) × String) :=
  (tbl.relationships.filter (fun rel => rel.type == "CHILD")).flatMap (fun rel =>
    rel.ids.filterMap (fun cid =>
      match idGet blocks cid with
      | none => none
      | some cell =>
        if cell.blockType == "CELL" then
          some ((cell.rowIndex, cell.columnIndex), text_from blocks cell)
        else none))

/-- Lookup in the cells dict; later entries with the same key overwrite. -/
def cellGet (cells : List ((Int × Int) × String)) (rc : Int × Int) : Option String :=
  ((cells.filter (fun e => e.1 == rc)).getLast?).map (fun e => e.2)

/-- Running maximum of the observed row indices (rmax, initial 0). -/
def rmaxOf (cells : List ((Int × Int) × String)) : Int :=
  cells.foldl (fun m e => max m e.1.1) 0

/-- Running maximum of the observed column indices (cmax, initial 0). -/
def cmaxOf (cells : List ((Int × Int) × String)) : Int :=
  cells.foldl (fun m e => max m e.1.2) 0

/-- Python range(lo, hi) over integers (empty when hi is at most lo). -/
def intRange (lo hi : Int) : List Int :=
  (List.range (hi - lo).toNat).map (fun n => lo + (n : Int))

/-- Boolean list-prefix test. -/
def listPref : List Char → List Char → Bool
  | [], _ => true
  | _ :: _, [] => false
  | c :: cs, d :: ds => c == d && listPref cs ds

/-- Boolean contiguous-sublist test. -/
def listSub (n : List Char) : List Char → Bool
  | [] => n.isEmpty
  | d :: ds => listPref n (d :: ds) || listSub n ds

/-- Python substring containment test (needle in hay). -/
def strIn (needle hay : String) : Bool := listSub needle.toList hay.toList

/-- Header classification chain applied to the processed header text
(already stripped and lower-cased), including the final fallback that
removes spaces from the text itself. -/
def classifyHeader (h_raw : String) : String :=
  if strIn "name" h_raw then "Name"
  else if strIn "employee" h_raw && strIn "id" h_raw then "EmployeeID"
  else if strIn "room" h_raw then "RoomNumber"
  else if strIn "wake" h_raw then "Wake"
  else if strIn "sign" h_raw then "Signature"
  else removeSpaces h_raw

/-- Header key for column c: the row-1 cell text, where the Python
expression (cells.get((1, c)) or "Col" ++ c) substitutes the placeholder
when the cell is absent or its stored text is empty, then strip,
lower-case and classify. -/
def headerKeyOf (c : Int) (txt : Option String) : String :=
  let h_raw := pyLower (pyStrip (match txt with
    | some t => if t == "" then "Col" ++ toString c else t
    | none => "Col" ++ toString c))
  classifyHeader h_raw

/-- The header row: keys for columns 1 .. cmax. -/
def headerFromCells (cells : List ((Int × Int) × String)) : List String :=
  (intRange 1 (cmaxOf cells + 1)).map (fun c => headerKeyOf c (cellGet cells (1, c)))

/-- Python dict assignment on an insertion-ordered association list:
update the existing binding in place or append a new one. -/
def dictSet (d : List (String × String)) (k v : String) : List (String × String) :=
  if d.any (fun e => e.1 == k) then
    d.map (fun e => if e.1 == k then (k, v) else e)
  else d ++ [(k, v)]

/-- Python dict get on an association list built by dictSet. -/
def rowGet (d : List (String × String)) (k : String) : Option String :=
  (d.find? (fun e => e.1 == k)).map (fun e => e.2)

/-- The per-column stripped values of data row r, keyed by header, in
Python enumerate(header, start=1) order. -/
def dataRowVals (cells : List ((Int × Int) × String)) (header : List String) (r : Int) :
    List (String × String) :=
  (List.enumFrom 1 header).map (fun p =>
    (p.2, pyStrip ((cellGet cells (r, (p.1 : Int))).getD "")))

/-- One pass of the data-row loop: build the row dict while tracking the
all-values-empty flag, exactly as the script does. -/
def buildDataRow (cells : List ((Int × Int) × String)) (header : List String) (r : Int) :
    List (String × String) × Bool :=
  (List.enumFrom 1 header).foldl
    (fun st p =>
      let val := pyStrip ((cellGet cells (r, (p.1 : Int))).getD "")
      (dictSet st.1 p.2 val, st.2 && (val == "")))
    ([], true)

/-- Table Reconstructor: the list of row dictionaries from the first
detected TABLE block (parse_first_table). -/
def parse_first_table (blocks : List Block) : List (List (String × String)) :=
  match firstTable blocks with
  | none => []
  | some tbl =>
    let cells := tableCells blocks tbl
    let header := headerFromCells cells
    (intRange 2 (rmaxOf cells + 1)).foldl
      (fun out r =>
        let rowFlag := buildDataRow cells header r
        if rowFlag.2 then out else out ++ [rowFlag.1])
      []

/-! Model of Python difflib.SequenceMatcher(None, a, b) on character
lists, as used by sim: the b-side occurrence map with the autojunk
heuristic, the dynamic-programming longest-match search with its four
extension loops, the recursive block subdivision, and the ratio. -/

/-- Character of a list by position, with an irrelevant default (every
reachable access of the algorithm is in range). -/
def nth (l : List Char) (i : ℕ) : Char := l.getD i ' '

/-- Ascending occurrence positions of c in b. -/
def posList (b : List Char) (c : Char) : List ℕ :=
  (List.range b.length).filter (fun j => nth b j == c)

/-- The autojunk heuristic of SequenceMatcher (junk parameter None): for
a b side of length at least 200, elements occurring more than one percent
of the time are junk. -/
def isbjunk (b : List Char) (c : Char) : Bool :=
  decide (200 ≤ b.length) && decide (b.length / 100 + 1 < b.count c)

/-- The b2j occurrence map: ascending positions of c in b, with popular
(junk) elements deleted. -/
def b2j (b : List Char) (c : Char) : List ℕ :=
  if isbjunk b c then [] else posList b c

/-- Python j2len.get(j-1, 0) + 1, where index -1 is absent. -/
def kOf (j2len : ℕ → ℕ) (j : ℕ) : ℕ :=
  (match j with
   | 0 => 0
   | Nat.succ t => j2len t) + 1

/-- The occurrence positions processed for row i: Python skips j < blo
and breaks at the first j ≥ bhi of the ascending list. -/
def jsOf (a b : List Char) (blo bhi : ℕ) (i : ℕ) : List ℕ :=
  ((b2j b (nth a i)).takeWhile (fun j => decide (j < bhi))).filter
    (fun j => decide (blo ≤ j))

/-- Best-triple update pass of the inner DP loop for row i. -/
def dpInner (j2len : ℕ → ℕ) (i : ℕ) (js : List ℕ) (best : ℕ × ℕ × ℕ) : ℕ × ℕ × ℕ :=
  js.foldl
    (fun best j =>
      let k := kOf j2len j
      if best.2.2 < k then (i + 1 - k, j + 1 - k, k) else best)
    best

/-- The j2len dictionary rebuilt for row i. -/
def newJ2len (j2len : ℕ → ℕ) (js : List ℕ) : ℕ → ℕ :=
  fun j => if j ∈ js then kOf j2len j else 0

/-- The DP phase of find_longest_match: thread (j2len, best) through the
given number of rows starting at row i. -/
def dpGo (a b : List Char) (blo bhi : ℕ) :
    ℕ → ℕ → ((ℕ → ℕ) × (ℕ × ℕ × ℕ)) → ((ℕ → ℕ) × (ℕ × ℕ × ℕ))
  | 0, _, st => st
  | Nat.succ n, i, st =>
    let js := jsOf a b blo bhi i
    dpGo a b blo bhi n (i + 1) (newJ2len st.1 js, dpInner st.1 i js st.2)

/-- Best junk-free block of a[alo:ahi] vs b[blo:bhi] before extension. -/
def dpPhase (a b : List Char) (alo ahi blo bhi : ℕ) : ℕ × ℕ × ℕ :=
  (dpGo a b blo bhi (ahi - alo) alo ((fun _ => 0), (alo, blo, 0))).2

/-- Bounded while loop: advance d while the guard holds, for at most fuel
steps; the fuel is always chosen large enough that the guard fails
first, so this equals the unbounded Python while loop. -/
def extLoop (P : ℕ → Bool) : ℕ → ℕ → ℕ
  | 0, d => d
  | Nat.succ f, d => if P d then extLoop P f (d + 1) else d

/-- One backward extension while-loop of find_longest_match: move the
block start left while the b-side junk test equals junkFlag and the
characters match; Python never needs more than best-start steps. -/
def extBackward (a b : List Char) (alo blo : ℕ) (junkFlag : Bool)
    (best : ℕ × ℕ × ℕ) : ℕ × ℕ × ℕ :=
  let d := extLoop (fun d =>
    decide (alo < best.1 - d) && decide (blo < best.2.1 - d) &&
    (isbjunk b (nth b (best.2.1 - d - 1)) == junkFlag) &&
    (nth a (best.1 - d - 1) == nth b (best.2.1 - d - 1))) best.1 0
  (best.1 - d, best.2.1 - d, best.2.2 + d)

/-- One forward extension while-loop of find_longest_match: grow the
block while the b-side junk test equals junkFlag and the characters
match; Python never needs more than ahi steps. -/
def extForward (a b : List Char) (ahi bhi : ℕ) (junkFlag : Bool)
    (best : ℕ × ℕ × ℕ) : ℕ × ℕ × ℕ :=
  let d := extLoop (fun d =>
    decide (best.1 + best.2.2 + d < ahi) && decide (best.2.1 + best.2.2 + d < bhi) &&
    (isbjunk b (nth b (best.2.1 + best.2.2 + d)) == junkFlag) &&
    (nth a (best.1 + best.2.2 + d) == nth b (best.2.1 + best.2.2 + d))) ahi 0
  (best.1, best.2.1, best.2.2 + d)

/-- find_longest_match: the DP phase followed by the four extension
loops (non-junk backward and forward, then junk backward and forward). -/
def find_longest_match (a b : List Char) (alo ahi blo bhi : ℕ) : ℕ × ℕ × ℕ :=
  extForward a b ahi bhi true (extBackward a b alo blo true
    (extForward a b ahi bhi false (extBackward a b alo blo false
      (dpPhase a b alo ahi blo bhi))))

/-- Total size of the matching blocks found by the recursive subdivision
of get_matching_blocks (its sort and adjacent-block merge preserve this
total). The fuel dominates the recursion depth, which is bounded by the
segment length. -/
def mtotal (a b : List Char) : ℕ → ℕ → ℕ → ℕ → ℕ → ℕ
  | 0, _, _, _, _ => 0
  | Nat.succ fuel, alo, ahi, blo, bhi =>
    let m := find_longest_match a b alo ahi blo bhi
    let i := m.1
    let j := m.2.1
    let k := m.2.2
    if k = 0 then 0
    else
      (if alo < i ∧ blo < j then mtotal a b fuel alo i blo j else 0) + k +
      (if i + k < ahi ∧ j + k < bhi then mtotal a b fuel (i + k) ahi (j + k) bhi else 0)

/-- SequenceMatcher ratio, 2 M / (la + lb), as an exact rational. -/
def ratio (a b : List Char) : ℚ :=
  if a.length + b.length = 0 then 1
  else 2 * (mtotal a b (a.length + b.length) 0 a.length 0 b.length : ℚ) /
    ((a.length : ℚ) + (b.length : ℚ))

/-- The similarity function sim of the script: strip and lower both
inputs, 0.0 when either is then empty, else the SequenceMatcher ratio. -/
def sim (a b : String) : ℚ :=
  let a2 := pyLower (pyStrip a)
  let b2 := pyLower (pyStrip b)
  if a2 != "" && b2 != "" then ratio a2.toList b2.toList else 0

/-! Identity Reconciler: the pure core of the per-row matching loop of
process, over a roster modelled as the items of the all_profiles dict
(employee id, profile name) in iteration order. -/

/-- Roster lookup, Python dict membership plus indexing (keys unique). -/
def lookupProfile (profiles : List (String × String)) (k : String) : Option String :=
  (profiles.find? (fun p => p.1 == k)).map (fun p => p.2)

/-- Loop body of find_best_match: keep a strictly greater similarity. -/
def fbmStep (tname : String) (best : Option (String × String) × ℚ) (p : String × String) :
    Option (String × String) × ℚ :=
  let confidence := sim tname p.2
  if best.2 < confidence then (some p, confidence) else best

/-- find_best_match: scan the roster in order keeping a strictly greater
similarity to the given name; short-circuit on a blank name. -/
def find_best_match (tname : String) (profiles : List (String × String)) :
    Option (String × String) × ℚ :=
  if pyStrip tname == "" then (none, 0)
  else profiles.foldl (fbmStep tname) (none, 0)

/-- Name field of the row, stripped (textract_name). -/
def textractNameOf (r : List (String × String)) : String :=
  pyStrip ((rowGet r "Name").getD "")

/-- EmployeeID field of the row with spaces removed, then stripped. -/
def empIdOf (r : List (String × String)) : String :=
  pyStrip (removeSpaces ((rowGet r "EmployeeID").getD ""))

/-- Direct-identifier match: present iff the normalized id is non-empty
and is a key of the roster. -/
def directMatchOf (profiles : List (String × String)) (r : List (String × String)) :
    Option String :=
  if empIdOf r != "" then lookupProfile profiles (empIdOf r) else none

/-- direct_confidence: similarity of the row name to the directly
matched profile name, 0.0 without a direct match. -/
def directConfidenceOf (profiles : List (String × String)) (r : List (String × String)) : ℚ :=
  match directMatchOf profiles r with
  | some nm => sim (textractNameOf r) nm
  | none => 0

/-- Per-row outcome: the fields of the processed record relevant to
reconciliation (the MatchResult plus the extra-names contribution). -/
structure RowResult where
  textractName : String
  empId : String
  matchedEmpId : String
  matchedProfile : Option String
  confidence : ℚ
  matchType : String
  valid : Bool
  extraName : Option String
deriving Repr, DecidableEq

/-- Match selection and validity for one extracted row (the body of the
loop of process). In the NAME branch name_match is provably present, so
the getD defaults are never taken. -/
def processRow (profiles : List (String × String)) (r : List (String × String)) :
    RowResult :=
  let tname := textractNameOf r
  let emp_id := empIdOf r
  let direct_match := directMatchOf profiles r
  let direct_confidence := directConfidenceOf profiles r
  let nm := find_best_match tname profiles
  let name_match := nm.1
  let name_confidence := nm.2
  let base : RowResult :=
    if name_confidence ≤ direct_confidence ∧ 1/2 < direct_confidence then
      { textractName := tname, empId := emp_id, matchedEmpId := emp_id,
        matchedProfile := direct_match, confidence := direct_confidence,
        matchType := "ID", valid := false, extraName := none }
    else if 1/2 < name_confidence then
      { textractName := tname, empId := emp_id,
        matchedEmpId := (name_match.map (fun p => p.1)).getD "",
        matchedProfile := name_match.map (fun p => p.2),
        confidence := name_confidence, matchType := "NAME", valid := false,
        extraName := none }
    else
      { textractName := tname, empId := emp_id,
        matchedEmpId := if emp_id != "" then emp_id else "UNKNOWN",
        matchedProfile := none, confidence := 0, matchType := "NONE",
        valid := false,
        extraName := if tname != "" then some tname else none }
  { base with valid := base.matchedProfile.isSome && decide ((9 : ℚ)/10 ≤ base.confidence) }

/-- One step of the sheet-level accumulation: append the record, add the
matched id to the matched set when a profile was matched, and append the
extra name when one was recorded. -/
def processRowsStep (profiles : List (String × String))
    (st : List RowResult × Finset String × List String)
    (r : List (String × String)) :
    List RowResult × Finset String × List String :=
  let res := processRow profiles r
  (st.1 ++ [res],
   if res.matchedProfile.isSome then insert res.matchedEmpId st.2.1 else st.2.1,
   st.2.2 ++ res.extraName.toList)

/-- Sheet-level accumulation over all rows: processed records, the set
of matched employee ids, and the extra names, in row order. -/
def processRows (profiles : List (String × String))
    (rows : List (List (String × String))) :
    List RowResult × Finset String × List String :=
  rows.foldl (processRowsStep profiles) ([], ∅, [])

/-- Overall match percentage, with the empty-roster guard of the script. -/
def overallMatchPct (matched : Finset String) (profiles : List (String × String)) : ℚ :=
  if profiles ≠ [] then ((matched.card : ℚ) / (profiles.length : ℚ)) * 100 else 0

/-- The identifiers (keys) of the roster. -/
def profileKeys (profiles : List (String × String)) : Finset String :=
  profiles.foldr (fun p s => insert p.1 s) ∅

/-- Running maximum of the similarities of the roster names to tname. -/
def maxSimTo (tname : String) (profiles : List (String × String)) : ℚ :=
  profiles.foldl (fun m p => max m (sim tname p.2)) 0

/-! Auxiliary definitions: concrete demonstration inputs, the
spec-worded header-key variant, and the diagonal chain value used to
analyse the DP phase of SequenceMatcher on equal inputs. -/

def c10Profiles : List (String × String) := [("001", "amy"), ("002", "amy")]

def c2Profiles : List (String × String) := [("001", "jane doe")]

def c2Row : List (String × String) := [("Name", "Jane Doe"), ("EmployeeID", "001")]

def c4Row : List (String × String) := []

def c9Row : List (String × String) := [("Name", "Bob")]

def wordBlock (i t : String) : Block :=
  { id := some i, blockType := "WORD", text := t }

def cellBlock (i : String) (r c : Int) (kids : List String) : Block :=
  { id := some i, blockType := "CELL", rowIndex := r, columnIndex := c,
    relationships := [⟨"CHILD", kids⟩] }

def tableBlock (i : String) (kids : List String) : Block :=
  { id := some i, blockType := "TABLE", relationships := [⟨"CHILD", kids⟩] }

/-- Region input whose table has a header cell only in column 1 and a
data cell in column 2, so the row-1 cell of column 2 is absent. -/
def headerDemoBlocks : List Block :=
  [tableBlock "t" ["h1", "d2"], cellBlock "h1" 1 1 ["w1"], wordBlock "w1" "Name",
   cellBlock "d2" 2 2 ["w2"], wordBlock "w2" "x"]

/-- The header key as claim C5 words it: an absent row-1 cell is read as
the empty string before lower-casing and classifying, so an absent
header classifies the empty string. -/
def headerKeyOfClaim (txt : Option String) : String :=
  classifyHeader (pyLower (pyStrip (txt.getD "")))

/-- Region input whose table has two header cells both reading Name, and
one data cell John under the first. -/
def dupHeaderBlocks : List Block :=
  [tableBlock "t" ["h1", "h2", "d1"], cellBlock "h1" 1 1 ["w1"], wordBlock "w1" "Name",
   cellBlock "h2" 1 2 ["w2"], wordBlock "w2" "Name", cellBlock "d1" 2 1 ["w3"],
   wordBlock "w3" "John"]

/-- Cells of the first table (empty when no table exists). -/
def cellsOf (blocks : List Block) : List ((Int × Int) × String) :=
  match firstTable blocks with
  | none => []
  | some tbl => tableCells blocks tbl

/-- The value of the DP dictionary j2len: length of the junk-free match
ending at row alo + d and b position j, as built row by row. -/
def chainL (a b : List Char) (blo bhi alo : ℕ) : ℕ → ℕ → ℕ
  | d, j =>
    if j ∈ jsOf a b blo bhi (alo + d) then
      (match d, j with
       | 0, _ => 0
       | Nat.succ _, 0 => 0
       | Nat.succ d2, Nat.succ j2 => chainL a b blo bhi alo d2 j2) + 1
    else 0

/-- The j2len dictionary after c processed rows. -/
def jfun (a b : List Char) (blo bhi alo : ℕ) (c : ℕ) : ℕ → ℕ :=
  match c with
  | 0 => fun _ => 0
  | Nat.succ c2 => fun j => chainL a b blo bhi alo c2 j

/-- The second argument of the asymmetric similarity example: the string
ab repeated one hundred times, long enough to engage the autojunk
heuristic of SequenceMatcher. -/
def abString : String := "abababababababababababababababababababababababababababababababababababababababababababababababababababababababababababababababababababababababababababababababababababababababababababababababababababab"

/-! The verification development: supporting lemmas followed by the
claim theorems, their witnesses and the counterexamples. -/

lemma foldlMax_init_le (g : String × String → ℚ) :
    ∀ (l : List (String × String)) (m : ℚ), m ≤ l.foldl (fun m p => max m (g p)) m
  | [], m => le_refl m
  | p :: rest, m => by
    simpa using le_trans (le_max_left m (g p)) (foldlMax_init_le g rest (max m (g p)))

lemma fbmGo (t : String) :
    ∀ (ps : List (String × String)) (cur : Option (String × String) × ℚ),
      (ps.foldl (fbmStep t) cur).2 = ps.foldl (fun m p => max m (sim t p.2)) cur.2 ∧
      (cur.2 < (ps.foldl (fbmStep t) cur).2 →
        (ps.foldl (fbmStep t) cur).1 =
          ps.find? (fun p => decide (sim t p.2 = (ps.foldl (fbmStep t) cur).2))) ∧
      (¬ cur.2 < (ps.foldl (fbmStep t) cur).2 → ps.foldl (fbmStep t) cur = cur) := by
  intro ps
  induction ps with
  | nil =>
    intro cur
    refine ⟨rfl, fun h => absurd h (lt_irrefl _), fun _ => rfl⟩
  | cons p rest ih =>
    intro cur
    by_cases hc : cur.2 < sim t p.2
    · have hstep : fbmStep t cur p = (some p, sim t p.2) := by
        simp [fbmStep, hc]
      have ihr := ih (some p, sim t p.2)
      have hmax : max cur.2 (sim t p.2) = sim t p.2 := max_eq_right (le_of_lt hc)
      have hinit : (sim t p.2) ≤ rest.foldl (fun m q => max m (sim t q.2)) (sim t p.2) :=
        foldlMax_init_le (fun q => sim t q.2) rest _
      constructor
      · simp only [List.foldl_cons, hstep, hmax]
        exact ihr.1
      constructor
      · intro _
        simp only [List.foldl_cons, hstep]
        by_cases h2 : sim t p.2 < (rest.foldl (fbmStep t) (some p, sim t p.2)).2
        · have hpredF : (decide
              (sim t p.2 = (rest.foldl (fbmStep t) (some p, sim t p.2)).2)) = false := by
            simp only [decide_eq_false_iff_not]
            exact fun hEq => absurd h2 (not_lt.mpr (le_of_eq hEq.symm))
          rw [ihr.2.1 h2]
          conv_rhs => rw [List.find?]
          rw [hpredF]
        · rw [ihr.2.2 h2]
          conv_rhs => rw [List.find?]
          simp
      · intro hno
        exfalso
        apply hno
        simp only [List.foldl_cons, hstep, ihr.1]
        exact lt_of_lt_of_le hc hinit
    · have hstep : fbmStep t cur p = cur := by
        simp [fbmStep, hc]
      have ihr := ih cur
      have hmax : max cur.2 (sim t p.2) = cur.2 := max_eq_left (not_lt.mp hc)
      constructor
      · simp only [List.foldl_cons, hstep, hmax]
        exact ihr.1
      constructor
      · intro hlt
        simp only [List.foldl_cons, hstep] at hlt ⊢
        have hpredF : (decide
            (sim t p.2 = (rest.foldl (fbmStep t) cur).2)) = false := by
          simp only [decide_eq_false_iff_not]
          intro hEq
          exact absurd (hEq ▸ (not_lt.mp hc) : (rest.foldl (fbmStep t) cur).2 ≤ cur.2)
            (not_le.mpr hlt)
        rw [ihr.2.1 hlt]
        conv_rhs => rw [List.find?]
        rw [hpredF]
      · intro hno
        simp only [List.foldl_cons, hstep] at hno ⊢
        exact ihr.2.2 hno

lemma fbm_someStable (t : String) :
    ∀ (ps : List (String × String)) (cur : Option (String × String) × ℚ),
      cur.1.isSome = true → ((ps.foldl (fbmStep t) cur).1).isSome = true
  | [], cur, h => h
  | p :: rest, cur, h => by
    simp only [List.foldl_cons]
    by_cases hc : cur.2 < sim t p.2
    · exact fbm_someStable t rest _ (by simp [fbmStep, hc])
    · exact fbm_someStable t rest _ (by simpa [fbmStep, hc] using h)

lemma fbm_none_aux (t : String) :
    ∀ (ps : List (String × String)) (cur : Option (String × String) × ℚ),
      cur.1 = none → cur.2 = 0 →
      ((ps.foldl (fbmStep t) cur).1 = none → (ps.foldl (fbmStep t) cur).2 = 0)
  | [], cur, _, h0, _ => h0
  | p :: rest, cur, hn, h0, hres => by
    simp only [List.foldl_cons] at hres ⊢
    by_cases hc : cur.2 < sim t p.2
    · exfalso
      have hsome : ((rest.foldl (fbmStep t) (fbmStep t cur p)).1).isSome = true :=
        fbm_someStable t rest _ (by simp [fbmStep, hc])
      rw [hres] at hsome
      simp at hsome
    · have hstep : fbmStep t cur p = cur := by simp [fbmStep, hc]
      rw [hstep] at hres ⊢
      exact fbm_none_aux t rest cur hn h0 hres

lemma find_best_match_none (t : String) (ps : List (String × String)) :
    (find_best_match t ps).1 = none → (find_best_match t ps).2 = 0 := by
  unfold find_best_match
  by_cases h : pyStrip t == ""
  · simp [h]
  · simp only [h, Bool.false_eq_true, if_false]
    exact fbm_none_aux t ps (none, 0) rfl rfl

lemma fbm_mem (t : String) :
    ∀ (ps : List (String × String)) (cur : Option (String × String) × ℚ)
      (q : String × String),
      (ps.foldl (fbmStep t) cur).1 = some q → q ∈ ps ∨ cur.1 = some q
  | [], _, q, h => Or.inr h
  | p :: rest, cur, q, h => by
    simp only [List.foldl_cons] at h
    by_cases hc : cur.2 < sim t p.2
    · have hstep : fbmStep t cur p = (some p, sim t p.2) := by simp [fbmStep, hc]
      rw [hstep] at h
      rcases fbm_mem t rest _ q h with hm | hm
      · exact Or.inl (List.mem_cons_of_mem _ hm)
      · simp only [Option.some.injEq] at hm
        exact Or.inl (hm ▸ List.mem_cons_self _ _)
    · have hstep : fbmStep t cur p = cur := by simp [fbmStep, hc]
      rw [hstep] at h
      rcases fbm_mem t rest cur q h with hm | hm
      · exact Or.inl (List.mem_cons_of_mem _ hm)
      · exact Or.inr hm

lemma find_best_match_mem (t : String) (ps : List (String × String)) (q : String × String) :
    (find_best_match t ps).1 = some q → q ∈ ps := by
  unfold find_best_match
  by_cases h : pyStrip t == ""
  · simp [h]
  · simp only [h, Bool.false_eq_true, if_false]
    intro hq
    rcases fbm_mem t ps (none, 0) q hq with hm | hm
    · exact hm
    · simp at hm

lemma directMatch_isSome_of_pos (profiles : List (String × String))
    (r : List (String × String)) (h : 0 < directConfidenceOf profiles r) :
    (directMatchOf profiles r).isSome = true := by
  cases hm : directMatchOf profiles r with
  | some nm => rfl
  | none =>
    exfalso
    unfold directConfidenceOf at h
    rw [hm] at h
    exact absurd h (lt_irrefl 0)

lemma fbm_isSome_of_pos (t : String) (ps : List (String × String))
    (h : 0 < (find_best_match t ps).2) : ((find_best_match t ps).1).isSome = true := by
  cases hm : (find_best_match t ps).1 with
  | some q => rfl
  | none =>
    exfalso
    rw [find_best_match_none t ps hm] at h
    exact absurd h (lt_irrefl 0)

/-- C9: for every row whose final classification is NONE, the recorded
confidence is exactly 0, even when the best name-search similarity
against the roster was positive but at most one half. -/
theorem c9_none_confidence_zero (profiles : List (String × String))
    (r : List (String × String)) :
    (processRow profiles r).matchType = "NONE" → (processRow profiles r).confidence = 0 := by
  simp only [processRow]
  split_ifs with h1 h2 <;> (dsimp only; simp)

/-- C1: for every extracted row the derived boolean valid is true iff
matchType is not NONE and the confidence is at least 0.90; in particular
confidence exactly 0.90 with a match is valid, and 0.899 is not. -/
theorem c1_valid_iff (profiles : List (String × String)) (r : List (String × String)) :
    (processRow profiles r).valid = true ↔
      ((processRow profiles r).matchType ≠ "NONE" ∧
        (9 : ℚ)/10 ≤ (processRow profiles r).confidence) := by
  simp only [processRow]
  split_ifs with h1 h2
  · have hsome : (directMatchOf profiles r).isSome = true :=
      directMatch_isSome_of_pos profiles r (lt_trans (by norm_num) h1.2)
    dsimp only
    simp [hsome]
  · have hsome : ((find_best_match (textractNameOf r) profiles).1).isSome = true :=
      fbm_isSome_of_pos _ _ (lt_trans (by norm_num) h2)
    dsimp only
    simp [hsome]
  all_goals simp

lemma sim_eval (a b : String) (m la lb : ℕ)
    (hne : (pyLower (pyStrip a) != "" && pyLower (pyStrip b) != "") = true)
    (hla : (pyLower (pyStrip a)).toList.length = la)
    (hlb : (pyLower (pyStrip b)).toList.length = lb)
    (h0 : la + lb ≠ 0)
    (hm : mtotal (pyLower (pyStrip a)).toList (pyLower (pyStrip b)).toList
      (la + lb) 0 la 0 lb = m) :
    sim a b = 2 * (m : ℚ) / ((la : ℚ) + (lb : ℚ)) := by
  simp only [sim, hne, if_true]
  unfold ratio
  rw [hla, hlb, hm]
  rw [if_neg h0]

/-- C2: the tie-break / selection policy of the per-row loop: the direct
identifier wins whenever its confidence is at least the name confidence
and above 0.5 (so exact ties go to ID); otherwise a name confidence above
0.5 selects the best name match; otherwise the row is unmatched. -/
theorem c2_selection_policy (profiles : List (String × String))
    (r : List (String × String)) :
    (((find_best_match (textractNameOf r) profiles).2 ≤ directConfidenceOf profiles r ∧
        1/2 < directConfidenceOf profiles r) →
      (processRow profiles r).matchType = "ID" ∧
      (processRow profiles r).matchedEmpId = empIdOf r ∧
      (processRow profiles r).matchedProfile = directMatchOf profiles r ∧
      (processRow profiles r).confidence = directConfidenceOf profiles r) ∧
    (¬ ((find_best_match (textractNameOf r) profiles).2 ≤ directConfidenceOf profiles r ∧
        1/2 < directConfidenceOf profiles r) →
      1/2 < (find_best_match (textractNameOf r) profiles).2 →
      (processRow profiles r).matchType = "NAME" ∧
      (processRow profiles r).matchedProfile =
        ((find_best_match (textractNameOf r) profiles).1).map (fun p => p.2) ∧
      (processRow profiles r).confidence = (find_best_match (textractNameOf r) profiles).2) ∧
    (¬ ((find_best_match (textractNameOf r) profiles).2 ≤ directConfidenceOf profiles r ∧
        1/2 < directConfidenceOf profiles r) →
      ¬ (1/2 < (find_best_match (textractNameOf r) profiles).2) →
      (processRow profiles r).matchType = "NONE") ∧
    ((directConfidenceOf profiles r = (find_best_match (textractNameOf r) profiles).2 ∧
        1/2 < directConfidenceOf profiles r) →
      (processRow profiles r).matchType = "ID") := by
  refine ⟨?_, ?_, ?_, ?_⟩
  · intro h
    simp only [processRow, if_pos h]
    refine ⟨?_, ?_, ?_, ?_⟩ <;> trivial
  · intro h1 h2
    simp only [processRow, if_neg h1, if_pos h2]
    refine ⟨?_, ?_, ?_⟩ <;> trivial
  · intro h1 h2
    simp only [processRow, if_neg h1, if_neg h2]
  · intro h
    have hc : ((find_best_match (textractNameOf r) profiles).2 ≤ directConfidenceOf profiles r ∧
        1/2 < directConfidenceOf profiles r) := ⟨h.1.symm.le, h.2⟩
    simp only [processRow, if_pos hc]

/-- Characterization of the NONE branch in terms of the two selection
conditions. -/
lemma processRow_none_iff (profiles : List (String × String))
    (r : List (String × String)) :
    (processRow profiles r).matchType = "NONE" ↔
      ¬ ((find_best_match (textractNameOf r) profiles).2 ≤ directConfidenceOf profiles r ∧
          1/2 < directConfidenceOf profiles r) ∧
      ¬ (1/2 < (find_best_match (textractNameOf r) profiles).2) := by
  simp only [processRow]
  split_ifs with h1 h2
  · exact iff_of_false (by dsimp only; decide) (fun hx => hx.1 h1)
  · exact iff_of_false (by dsimp only; decide) (fun hx => hx.2 h2)
  all_goals exact iff_of_true rfl ⟨h1, h2⟩

/-- C4: defaults of the NONE branch: the matched identifier falls back to
the row's own normalised identifier, or UNKNOWN when that is empty, and
the name is recorded as an extra name exactly when non-empty; a row with
empty Name and empty EmployeeID yields NONE, UNKNOWN and no extra name. -/
theorem c4_none_defaults (profiles : List (String × String))
    (r : List (String × String)) :
    ((processRow profiles r).matchType = "NONE" →
      (processRow profiles r).matchedEmpId =
        (if empIdOf r ≠ "" then empIdOf r else "UNKNOWN") ∧
      (processRow profiles r).extraName =
        (if textractNameOf r ≠ "" then some (textractNameOf r) else none)) ∧
    (textractNameOf r = "" → empIdOf r = "" →
      (processRow profiles r).matchType = "NONE" ∧
      (processRow profiles r).matchedEmpId = "UNKNOWN" ∧
      (processRow profiles r).extraName = none) := by
  constructor
  · intro hN
    obtain ⟨h1, h2⟩ := (processRow_none_iff profiles r).mp hN
    simp only [processRow, if_neg h1, if_neg h2]
    constructor
    · dsimp only
      split_ifs with ha hb <;> simp_all
    · dsimp only
      split_ifs with ha hb <;> simp_all
  · intro ht he
    have hd : directConfidenceOf profiles r = 0 := by
      simp [directConfidenceOf, directMatchOf, he]
    have hn : find_best_match (textractNameOf r) profiles = (none, 0) := by
      rw [ht]
      simp [find_best_match, pyStrip, stripChars]
    refine ⟨?_, ?_, ?_⟩ <;>
      simp only [processRow, hd, hn] <;>
      rw [if_neg (by norm_num), if_neg (by norm_num)] <;>
      simp [he, ht]

/-- The scan of find_best_match computes the maximal similarity and, when
it is positive, selects the first profile attaining it. -/
lemma fbm_max (tname : String) (profiles : List (String × String))
    (h : pyStrip tname ≠ "") :
    (find_best_match tname profiles).2 = maxSimTo tname profiles ∧
    (0 < maxSimTo tname profiles →
      (find_best_match tname profiles).1 =
        profiles.find? (fun p => decide (sim tname p.2 = maxSimTo tname profiles))) := by
  have hne : (pyStrip tname == "") = false := by
    simp [h]
  unfold find_best_match
  rw [hne]
  simp only [Bool.false_eq_true, if_false]
  have hgo := fbmGo tname profiles (none, 0)
  have hms : List.foldl (fun m p => max m (sim tname p.2))
      ((none : Option (String × String)), (0:ℚ)).2 profiles = maxSimTo tname profiles := rfl
  rw [hms] at hgo
  refine ⟨hgo.1, ?_⟩
  intro hpos
  have hfind := hgo.2.1 (by rw [hgo.1]; exact hpos)
  rw [hfind, hgo.1]

/-- C10: find_best_match keeps the maximum with a strict comparison, so
its confidence is the maximal similarity and, when that maximum is
positive, the selected profile is the first one attaining it in roster
iteration order. -/
theorem c10_first_of_ties (tname : String) (profiles : List (String × String))
    (h : pyStrip tname ≠ "") :
    (find_best_match tname profiles).2 = maxSimTo tname profiles ∧
    (0 < maxSimTo tname profiles →
      (find_best_match tname profiles).1 =
        profiles.find? (fun p => decide (sim tname p.2 = maxSimTo tname profiles))) :=
  fbm_max tname profiles h

lemma simJane : sim "Jane Doe" "jane doe" = 1 := by
  have h := sim_eval "Jane Doe" "jane doe" 8 8 8 (by decide) (by decide) (by decide)
    (by decide) (by decide)
  rw [h]; norm_num

lemma simBob : sim "Bob" "jane doe" = 2/11 := by
  have h := sim_eval "Bob" "jane doe" 1 3 8 (by decide) (by decide) (by decide)
    (by decide) (by decide)
  rw [h]; norm_num

theorem c2_witness :
    (directConfidenceOf c2Profiles c2Row =
        (find_best_match (textractNameOf c2Row) c2Profiles).2 ∧
      1/2 < directConfidenceOf c2Profiles c2Row) ∧
    (processRow c2Profiles c2Row).matchType = "ID" := by
  have ht : textractNameOf c2Row = "Jane Doe" := by decide
  have hdm : directMatchOf c2Profiles c2Row = some "jane doe" := by decide
  have hd : directConfidenceOf c2Profiles c2Row = 1 := by
    simp only [directConfidenceOf, hdm, ht, simJane]
  have hfb : (find_best_match (textractNameOf c2Row) c2Profiles).2 = 1 := by
    rw [ht, (fbm_max "Jane Doe" c2Profiles (by decide)).1]
    simp only [maxSimTo, List.foldl, simJane]
    exact max_eq_right (by norm_num)
  have htie : directConfidenceOf c2Profiles c2Row =
      (find_best_match (textractNameOf c2Row) c2Profiles).2 ∧
      1/2 < directConfidenceOf c2Profiles c2Row := by
    rw [hd, hfb]
    norm_num
  exact ⟨htie, (c2_selection_policy c2Profiles c2Row).2.2.2 htie⟩

theorem c4_witness :
    (textractNameOf c4Row = "" ∧ empIdOf c4Row = "") ∧
    ((processRow c2Profiles c4Row).matchType = "NONE" ∧
      (processRow c2Profiles c4Row).matchedEmpId = "UNKNOWN" ∧
      (processRow c2Profiles c4Row).extraName = none) :=
  ⟨⟨by decide, by decide⟩, (c4_none_defaults c2Profiles c4Row).2 (by decide) (by decide)⟩

theorem c9_witness :
    (0 : ℚ) < (find_best_match (textractNameOf c9Row) c2Profiles).2 ∧
    (find_best_match (textractNameOf c9Row) c2Profiles).2 ≤ 1/2 ∧
    (processRow c2Profiles c9Row).matchType = "NONE" ∧
    (processRow c2Profiles c9Row).confidence = 0 := by
  have ht : textractNameOf c9Row = "Bob" := by decide
  have hfb : (find_best_match (textractNameOf c9Row) c2Profiles).2 = 2/11 := by
    rw [ht, (fbm_max "Bob" c2Profiles (by decide)).1]
    simp only [maxSimTo, List.foldl, simBob]
    exact max_eq_right (by norm_num)
  have hd0 : directConfidenceOf c2Profiles c9Row = 0 := by
    have hdm : directMatchOf c2Profiles c9Row = none := by decide
    simp only [directConfidenceOf, hdm]
  have hN : (processRow c2Profiles c9Row).matchType = "NONE" := by
    refine (processRow_none_iff c2Profiles c9Row).mpr ⟨?_, ?_⟩
    · rw [hd0]
      rintro ⟨-, hh⟩
      norm_num at hh
    · rw [hfb]
      norm_num
  exact ⟨by rw [hfb]; norm_num, by rw [hfb]; norm_num, hN,
    c9_none_confidence_zero c2Profiles c9Row hN⟩

lemma simAmy : sim "Amy" "amy" = 1 := by
  have h := sim_eval "Amy" "amy" 3 3 3 (by decide) (by decide) (by decide)
    (by decide) (by decide)
  rw [h]; norm_num

lemma maxSimAmy : maxSimTo "Amy" c10Profiles = 1 := by
  simp only [maxSimTo, c10Profiles, List.foldl, simAmy]
  rw [max_eq_right (by norm_num : (0:ℚ) ⊔ 1 ≤ 1)]

theorem c10_witness :
    (0 : ℚ) < maxSimTo "Amy" c10Profiles ∧
    (find_best_match "Amy" c10Profiles).1 =
      c10Profiles.find? (fun p => decide (sim "Amy" p.2 = maxSimTo "Amy" c10Profiles)) ∧
    c10Profiles.find? (fun p => decide (sim "Amy" p.2 = maxSimTo "Amy" c10Profiles)) =
      some ("001", "amy") := by
  have hpos : (0 : ℚ) < maxSimTo "Amy" c10Profiles := by rw [maxSimAmy]; norm_num
  refine ⟨hpos, (c10_first_of_ties "Amy" c10Profiles (by decide)).2 hpos, ?_⟩
  have hpred : (fun (p : String × String) =>
      decide (sim "Amy" p.2 = maxSimTo "Amy" c10Profiles)) ("001", "amy") = true := by
    simp [simAmy, maxSimAmy]
  exact List.find?_cons_of_pos _ hpred

/-- C6: header classification applies the substring tests in the fixed
priority order name, employee-and-id, room, wake, sign: any text
containing name classifies as Name; EmployeeID requires employee and id
without name; a text with employee and name classifies as EmployeeID
only if it contains id (vacuously, since name wins); and the header
Employee Name classifies as Name. -/
theorem c6_priority_order :
    (∀ h, strIn "name" h = true → classifyHeader h = "Name") ∧
    (∀ h, strIn "name" h = false → (strIn "employee" h && strIn "id" h) = true →
      classifyHeader h = "EmployeeID") ∧
    (∀ h, strIn "employee" h = true → strIn "name" h = true →
      classifyHeader h = "EmployeeID" → strIn "id" h = true) ∧
    headerKeyOf 2 (some "Employee Name") = "Name" := by
  refine ⟨?_, ?_, ?_, by decide⟩
  · intro h hn
    simp [classifyHeader, hn]
  · intro h hn he
    simp [classifyHeader, hn, he]
  · intro h he hn hc
    rw [(by simp [classifyHeader, hn] : classifyHeader h = "Name")] at hc
    exact absurd hc (by decide)

theorem c6_witness :
    classifyHeader "employee name" = "Name" ∧
    classifyHeader "employee id" = "EmployeeID" :=
  ⟨c6_priority_order.1 "employee name" (by decide),
   c6_priority_order.2.1 "employee id" (by decide) (by decide)⟩

/-- C5 counterexample: for an absent header cell the script substitutes
the placeholder Col2, classified to the key col2, where the claim
prescribes the empty string; the emitted row indeed carries the key
col2. -/
theorem c5_counterexample :
    parse_first_table headerDemoBlocks = [[("Name", ""), ("col2", "x")]] ∧
    headerKeyOf 2 none = "col2" ∧
    headerKeyOfClaim none = "" ∧
    headerKeyOf 2 none ≠ headerKeyOfClaim none := by decide

/-- C5 amended: the header key substitutes the placeholder Col followed
by the column number when the row-1 cell is absent or empty, then strips,
lower-cases and classifies; an unrecognised processed text falls back to
itself with spaces removed. -/
theorem c5_amended (c : Int) (txt : Option String) :
    ((txt = none ∨ txt = some "") →
      headerKeyOf c txt = classifyHeader (pyLower (pyStrip ("Col" ++ toString c)))) ∧
    (∀ t, txt = some t → t ≠ "" →
      headerKeyOf c txt = classifyHeader (pyLower (pyStrip t))) ∧
    (∀ s, strIn "name" s = false → (strIn "employee" s && strIn "id" s) = false →
      strIn "room" s = false → strIn "wake" s = false → strIn "sign" s = false →
      classifyHeader s = removeSpaces s) := by
  refine ⟨?_, ?_, ?_⟩
  · rintro (h | h) <;> simp [headerKeyOf, h]
  · intro t h hne
    have ht : (t == "") = false := by simp [hne]
    simp [headerKeyOf, h, ht]
  · intro s h1 h2 h3 h4 h5
    simp [classifyHeader, h1, h2, h3, h4, h5]

theorem c5_witness :
    headerKeyOf 3 none = classifyHeader (pyLower (pyStrip ("Col" ++ toString (3 : Int)))) ∧
    headerKeyOf 1 (some "Room No.") = classifyHeader (pyLower (pyStrip "Room No.")) ∧
    classifyHeader "colx 9" = removeSpaces "colx 9" :=
  ⟨(c5_amended 3 none).1 (Or.inl rfl),
   (c5_amended 1 (some "Room No.")).2.1 "Room No." rfl (by decide),
   (c5_amended 0 none).2.2 "colx 9" (by decide) (by decide) (by decide) (by decide)
     (by decide)⟩

/-- C7 counterexample: with duplicated Name headers the script emits a
row whose final header mapping holds only empty values (the non-empty
value John was overwritten by the empty column 2), so a row that is
all-empty under the header mapping is emitted. -/
theorem c7_counterexample :
    parse_first_table dupHeaderBlocks = [[("Name", "")]] ∧
    (([("Name", "")] : List (String × String)).all (fun kv => kv.2 == "")) = true := by
  decide

lemma buildRowGo (valf : ℕ × String → String) :
    ∀ (l : List (ℕ × String)) (d : List (String × String)) (flag : Bool),
      (l.foldl (fun st p =>
          let val := valf p
          (dictSet st.1 p.2 val, st.2 && (val == ""))) (d, flag)).2
        = (flag && l.all (fun p => valf p == ""))
  | [], d, flag => by simp
  | p :: rest, d, flag => by
    simp only [List.foldl_cons, List.all_cons]
    rw [buildRowGo valf rest _ (flag && (valf p == ""))]
    rw [Bool.and_assoc]

lemma all_map_local {α β : Type} (f : α → β) (g : β → Bool) :
    ∀ l : List α, (l.map f).all g = l.all (fun x => g (f x))
  | [] => rfl
  | x :: rest => by simp only [List.map_cons, List.all_cons, all_map_local f g rest]

lemma buildDataRow_flag (cells : List ((Int × Int) × String)) (header : List String)
    (r : Int) :
    (buildDataRow cells header r).2 =
      (dataRowVals cells header r).all (fun kv => kv.2 == "") := by
  unfold buildDataRow dataRowVals
  rw [all_map_local]
  rw [buildRowGo (fun p => pyStrip ((cellGet cells (r, (p.1 : Int))).getD ""))
    (List.enumFrom 1 header) [] true]
  rw [Bool.true_and]

lemma rowsFold_mem (cells : List ((Int × Int) × String)) (header : List String) :
    ∀ (rs : List Int) (acc : List (List (String × String))),
      (∀ row ∈ acc, ∃ r : Int, (buildDataRow cells header r).2 = false ∧
        row = (buildDataRow cells header r).1) →
      ∀ row ∈ rs.foldl (fun out r =>
          let rowFlag := buildDataRow cells header r
          if rowFlag.2 then out else out ++ [rowFlag.1]) acc,
        ∃ r : Int, (buildDataRow cells header r).2 = false ∧
          row = (buildDataRow cells header r).1
  | [], acc, hacc => hacc
  | r0 :: rest, acc, hacc => by
    simp only [List.foldl_cons]
    apply rowsFold_mem cells header rest
    intro row hrow
    by_cases hf : (buildDataRow cells header r0).2 = true
    · simp only [hf, if_true] at hrow
      exact hacc row hrow
    · have hf2 : (buildDataRow cells header r0).2 = false := by simpa using hf
      simp only [hf2, Bool.false_eq_true, if_false] at hrow
      rcases List.mem_append.mp hrow with hm | hm
      · exact hacc row hm
      · have hrr : row = (buildDataRow cells header r0).1 := by
          simpa using hm
        exact ⟨r0, hf2, hrr⟩

lemma parse_rows_mem (blocks : List Block) :
    ∀ row ∈ parse_first_table blocks,
      ∃ r : Int,
        (buildDataRow (cellsOf blocks) (headerFromCells (cellsOf blocks)) r).2 = false ∧
        row = (buildDataRow (cellsOf blocks) (headerFromCells (cellsOf blocks)) r).1 := by
  intro row hrow
  unfold parse_first_table at hrow
  cases hft : firstTable blocks with
  | none =>
    rw [hft] at hrow
    simp at hrow
  | some tbl =>
    rw [hft] at hrow
    dsimp only at hrow
    have hcells : cellsOf blocks = tableCells blocks tbl := by
      unfold cellsOf; rw [hft]
    rw [← hcells] at hrow
    exact rowsFold_mem (cellsOf blocks) (headerFromCells (cellsOf blocks)) _ []
      (by intro row2 hrow2; simp at hrow2) row hrow

/-- C7 amended: a data row is emitted iff some per-column stripped cell
value is non-empty, every emitted row is the dictionary built from such a
row (so with duplicate header keys its final mapping may retain only
empty values), and re-running the reconstruction yields the same
sequence. -/
theorem c7_amended (blocks : List Block) :
    (∀ row ∈ parse_first_table blocks,
      ∃ r : Int,
        (buildDataRow (cellsOf blocks) (headerFromCells (cellsOf blocks)) r).2 = false ∧
        row = (buildDataRow (cellsOf blocks) (headerFromCells (cellsOf blocks)) r).1) ∧
    (∀ (cells : List ((Int × Int) × String)) (header : List String) (r : Int),
      (buildDataRow cells header r).2 = false ↔
        ∃ kv ∈ dataRowVals cells header r, kv.2 ≠ "") ∧
    parse_first_table blocks = parse_first_table blocks := by
  refine ⟨parse_rows_mem blocks, ?_, rfl⟩
  intro cells header r
  rw [buildDataRow_flag]
  rw [← Bool.not_eq_true, List.all_eq_true]
  push_neg
  constructor
  · rintro ⟨kv, hkv, hne⟩
    exact ⟨kv, hkv, by simpa using hne⟩
  · rintro ⟨kv, hkv, hne⟩
    exact ⟨kv, hkv, by simpa using hne⟩

theorem c7_witness :
    ∃ r : Int,
      (buildDataRow (cellsOf dupHeaderBlocks)
        (headerFromCells (cellsOf dupHeaderBlocks)) r).2 = false ∧
      [("Name", "")] = (buildDataRow (cellsOf dupHeaderBlocks)
        (headerFromCells (cellsOf dupHeaderBlocks)) r).1 :=
  (c7_amended dupHeaderBlocks).1 [("Name", "")] (by decide)

lemma mem_profileKeys (profiles : List (String × String)) (p : String × String) :
    p ∈ profiles → p.1 ∈ profileKeys profiles := by
  induction profiles with
  | nil => intro h; simp at h
  | cons q rest ih =>
    intro h
    rcases List.mem_cons.mp h with h | h
    · subst h
      exact Finset.mem_insert_self _ _
    · exact Finset.mem_insert_of_mem (ih h)

lemma lookupProfile_mem (profiles : List (String × String)) (k v : String) :
    lookupProfile profiles k = some v → k ∈ profileKeys profiles := by
  unfold lookupProfile
  intro h
  rcases Option.map_eq_some'.mp h with ⟨p, hp, -⟩
  have hmem := List.mem_of_find?_eq_some hp
  have hpred := List.find?_some hp
  have hk : p.1 = k := by simpa using hpred
  exact hk ▸ mem_profileKeys profiles p hmem

lemma processRow_matched_mem (profiles : List (String × String))
    (r : List (String × String)) :
    (processRow profiles r).matchedProfile.isSome = true →
    (processRow profiles r).matchedEmpId ∈ profileKeys profiles := by
  simp only [processRow]
  split_ifs with h1 h2
  · dsimp only
    intro hs
    unfold directMatchOf at hs
    by_cases he : (empIdOf r != "") = true
    · rw [if_pos he] at hs
      rcases Option.isSome_iff_exists.mp hs with ⟨v, hv⟩
      exact lookupProfile_mem profiles (empIdOf r) v hv
    · rw [if_neg he] at hs
      simp at hs
  · dsimp only
    intro hs
    rcases Option.isSome_iff_exists.mp (by simpa using hs) with ⟨q, hq⟩
    rw [hq]
    dsimp only [Option.map, Option.getD]
    exact mem_profileKeys profiles q (find_best_match_mem _ profiles q hq)
  all_goals (intro hs; simp at hs)

lemma processRowsGo_subset (profiles : List (String × String)) :
    ∀ (rows : List (List (String × String)))
      (acc : List RowResult × Finset String × List String),
      acc.2.1 ⊆ profileKeys profiles →
      ((rows.foldl (processRowsStep profiles) acc).2.1 ⊆ profileKeys profiles)
  | [], acc, hacc => hacc
  | r0 :: rest, acc, hacc => by
    simp only [List.foldl_cons]
    apply processRowsGo_subset profiles rest
    unfold processRowsStep
    dsimp only
    by_cases hs : (processRow profiles r0).matchedProfile.isSome = true
    · rw [if_pos hs]
      exact Finset.insert_subset (processRow_matched_mem profiles r0 hs) hacc
    · rw [if_neg hs]
      exact hacc

/-- C8: the overall match percentage is the number of matched roster
identifiers over the roster size times 100 (with the division-by-zero
convention agreeing with the guard), it is exactly 0 for an empty roster,
and the matched set only contains roster identifiers. -/
theorem c8_overall_percentage (profiles : List (String × String))
    (rows : List (List (String × String))) :
    overallMatchPct (processRows profiles rows).2.1 profiles =
      ((processRows profiles rows).2.1.card : ℚ) / (profiles.length : ℚ) * 100 ∧
    (profiles = [] → overallMatchPct (processRows profiles rows).2.1 profiles = 0) ∧
    (processRows profiles rows).2.1 ⊆ profileKeys profiles := by
  refine ⟨?_, ?_, processRowsGo_subset profiles rows ([], ∅, []) (by simp)⟩
  · by_cases hp : profiles = []
    · subst hp
      simp [overallMatchPct]
    · simp [overallMatchPct, hp]
  · intro hp
    simp [overallMatchPct, hp]

theorem c8_witness :
    overallMatchPct (processRows ([] : List (String × String)) ([] : List (List (String × String)))).2.1 [] = 0 :=
  (c8_overall_percentage [] []).2.1 rfl

/-! Bounds for find_longest_match and the match total, giving that every
similarity lies in the unit interval. -/
lemma extLoop_invariant (P : ℕ → Bool) (Q : ℕ → Prop)
    (hstep : ∀ d, Q d → P d = true → Q (d + 1)) :
    ∀ (fuel d : ℕ), Q d → Q (extLoop P fuel d)
  | 0, _, h => h
  | Nat.succ f, d, h => by
    unfold extLoop
    cases hP : P d with
    | false => exact h
    | true => exact extLoop_invariant P Q hstep f (d + 1) (hstep d h hP)

lemma extLoop_ge (P : ℕ → Bool) : ∀ (fuel d : ℕ), d ≤ extLoop P fuel d
  | 0, d => le_refl d
  | Nat.succ f, d => by
    unfold extLoop
    cases hP : P d with
    | false => exact le_refl d
    | true => exact le_trans (Nat.le_succ d) (extLoop_ge P f (d + 1))

lemma extLoop_stop (P : ℕ → Bool) (fuel d : ℕ) (h : P d = false) :
    extLoop P fuel d = d := by
  cases fuel with
  | zero => rfl
  | succ f =>
    unfold extLoop
    rw [h]
    simp

lemma extLoop_start (P : ℕ → Bool) (fuel : ℕ) (h : P 0 = true) (hf : 1 ≤ fuel) :
    1 ≤ extLoop P fuel 0 := by
  cases fuel with
  | zero => exact absurd hf (by norm_num)
  | succ f => unfold extLoop; rw [h]; exact extLoop_ge P f 1

lemma extLoop_back_bounds (P : ℕ → Bool) (bi bj alo blo : ℕ)
    (hP : ∀ d, P d = true → alo < bi - d ∧ blo < bj - d)
    (hbi : alo ≤ bi) (hbj : blo ≤ bj) (fuel : ℕ) :
    alo ≤ bi - extLoop P fuel 0 ∧ blo ≤ bj - extLoop P fuel 0 ∧
    extLoop P fuel 0 ≤ bi ∧ extLoop P fuel 0 ≤ bj :=
  extLoop_invariant P (fun d => alo ≤ bi - d ∧ blo ≤ bj - d ∧ d ≤ bi ∧ d ≤ bj)
    (fun d hQ hPd => by have := hP d hPd; omega) fuel 0
    ⟨by omega, by omega, by omega, by omega⟩

lemma extLoop_fwd_bounds (P : ℕ → Bool) (base1 base2 ahi bhi : ℕ)
    (hP : ∀ d, P d = true → base1 + d < ahi ∧ base2 + d < bhi)
    (h1 : base1 ≤ ahi) (h2 : base2 ≤ bhi) (fuel : ℕ) :
    base1 + extLoop P fuel 0 ≤ ahi ∧ base2 + extLoop P fuel 0 ≤ bhi :=
  extLoop_invariant P (fun d => base1 + d ≤ ahi ∧ base2 + d ≤ bhi)
    (fun d hQ hPd => by have := hP d hPd; omega) fuel 0 ⟨h1, h2⟩

lemma mem_jsOf_lower {a b : List Char} {blo bhi i j : ℕ} :
    j ∈ jsOf a b blo bhi i → blo ≤ j ∧ j < bhi := by
  intro h
  unfold jsOf at h
  have h1 := List.mem_filter.mp h
  refine ⟨by simpa using h1.2, by simpa using List.mem_takeWhile_imp h1.1⟩

lemma dpInner_bounds (j2len : ℕ → ℕ) (blo bhi alo i : ℕ) :
    ∀ (js : List ℕ) (best : ℕ × ℕ × ℕ),
      (∀ j ∈ js, blo ≤ j ∧ j < bhi ∧
        kOf j2len j + blo ≤ j + 1 ∧ kOf j2len j + alo ≤ i + 1) →
      alo ≤ best.1 → blo ≤ best.2.1 → best.1 + best.2.2 ≤ i + 1 →
      best.2.1 + best.2.2 ≤ bhi →
      alo ≤ (dpInner j2len i js best).1 ∧
      blo ≤ (dpInner j2len i js best).2.1 ∧
      (dpInner j2len i js best).1 + (dpInner j2len i js best).2.2 ≤ i + 1 ∧
      (dpInner j2len i js best).2.1 + (dpInner j2len i js best).2.2 ≤ bhi := by
  intro js
  induction js with
  | nil =>
    intro best _ h1 h2 h3 h4
    exact ⟨h1, h2, h3, h4⟩
  | cons j rest ih =>
    intro best hjs h1 h2 h3 h4
    have hj := hjs j (List.mem_cons_self _ _)
    have hrest : ∀ x ∈ rest, blo ≤ x ∧ x < bhi ∧
        kOf j2len x + blo ≤ x + 1 ∧ kOf j2len x + alo ≤ i + 1 :=
      fun x hx => hjs x (List.mem_cons_of_mem _ hx)
    have hstep : dpInner j2len i (j :: rest) best =
        dpInner j2len i rest (if best.2.2 < kOf j2len j
          then (i + 1 - kOf j2len j, j + 1 - kOf j2len j, kOf j2len j) else best) := by
      unfold dpInner
      simp only [List.foldl_cons]
    rw [hstep]
    by_cases hup : best.2.2 < kOf j2len j
    · rw [if_pos hup]
      exact ih _ hrest (show alo ≤ i + 1 - kOf j2len j by omega)
        (show blo ≤ j + 1 - kOf j2len j by omega)
        (show i + 1 - kOf j2len j + kOf j2len j ≤ i + 1 by omega)
        (show j + 1 - kOf j2len j + kOf j2len j ≤ bhi by omega)
    · rw [if_neg hup]
      exact ih best hrest h1 h2 h3 h4

lemma dpGo_bounds (a b : List Char) (blo bhi alo : ℕ) :
    ∀ (count i : ℕ) (st : (ℕ → ℕ) × (ℕ × ℕ × ℕ)),
      alo ≤ i →
      (∀ j, st.1 j ≠ 0 →
        blo ≤ j ∧ j < bhi ∧ st.1 j + blo ≤ j + 1 ∧ st.1 j + alo ≤ i) →
      alo ≤ st.2.1 → blo ≤ st.2.2.1 → st.2.1 + st.2.2.2 ≤ i →
      st.2.2.1 + st.2.2.2 ≤ bhi →
      alo ≤ (dpGo a b blo bhi count i st).2.1 ∧
      blo ≤ (dpGo a b blo bhi count i st).2.2.1 ∧
      (dpGo a b blo bhi count i st).2.1 + (dpGo a b blo bhi count i st).2.2.2 ≤
        i + count ∧
      (dpGo a b blo bhi count i st).2.2.1 + (dpGo a b blo bhi count i st).2.2.2 ≤ bhi
  | 0, i, st, hi, hj, h1, h2, h3, h4 => by
    have h0 : dpGo a b blo bhi 0 i st = st := rfl
    rw [h0]
    exact ⟨h1, h2, by omega, h4⟩
  | Nat.succ n, i, st, hi, hj, h1, h2, h3, h4 => by
    have hkOf : ∀ j ∈ jsOf a b blo bhi i, blo ≤ j ∧ j < bhi ∧
        kOf st.1 j + blo ≤ j + 1 ∧ kOf st.1 j + alo ≤ i + 1 := by
      intro j hjm
      have hb := mem_jsOf_lower hjm
      refine ⟨hb.1, hb.2, ?_, ?_⟩ <;>
      · cases j with
        | zero =>
          have hk : kOf st.1 0 = 1 := rfl
          omega
        | succ t =>
          have hk : kOf st.1 (t + 1) = st.1 t + 1 := rfl
          by_cases h0 : st.1 t = 0
          · omega
          · have h5 := hj t h0
            omega
    have hj2 : ∀ j, newJ2len st.1 (jsOf a b blo bhi i) j ≠ 0 →
        blo ≤ j ∧ j < bhi ∧
        newJ2len st.1 (jsOf a b blo bhi i) j + blo ≤ j + 1 ∧
        newJ2len st.1 (jsOf a b blo bhi i) j + alo ≤ i + 1 := by
      intro j hne
      unfold newJ2len at hne ⊢
      by_cases hm : j ∈ jsOf a b blo bhi i
      · rw [if_pos hm] at hne ⊢
        have := hkOf j hm
        exact ⟨this.1, this.2.1, this.2.2.1, this.2.2.2⟩
      · rw [if_neg hm] at hne
        exact absurd rfl hne
    have hinner := dpInner_bounds st.1 blo bhi alo i (jsOf a b blo bhi i) st.2 hkOf
      h1 h2 (by omega) h4
    have hrec := dpGo_bounds a b blo bhi alo n (i + 1)
      (newJ2len st.1 (jsOf a b blo bhi i), dpInner st.1 i (jsOf a b blo bhi i) st.2)
      (by omega) hj2 hinner.1 hinner.2.1 hinner.2.2.1 hinner.2.2.2
    have hgo : dpGo a b blo bhi (Nat.succ n) i st =
        dpGo a b blo bhi n (i + 1)
          (newJ2len st.1 (jsOf a b blo bhi i), dpInner st.1 i (jsOf a b blo bhi i) st.2) := rfl
    rw [hgo]
    exact ⟨hrec.1, hrec.2.1, by omega, hrec.2.2.2⟩

lemma dpPhase_bounds (a b : List Char) (alo ahi blo bhi : ℕ)
    (ha : alo ≤ ahi) (hb : blo ≤ bhi) :
    alo ≤ (dpPhase a b alo ahi blo bhi).1 ∧
    blo ≤ (dpPhase a b alo ahi blo bhi).2.1 ∧
    (dpPhase a b alo ahi blo bhi).1 + (dpPhase a b alo ahi blo bhi).2.2 ≤ ahi ∧
    (dpPhase a b alo ahi blo bhi).2.1 + (dpPhase a b alo ahi blo bhi).2.2 ≤ bhi := by
  have h := dpGo_bounds a b blo bhi alo (ahi - alo) alo
    ((fun _ => 0), (alo, blo, 0)) (le_refl alo)
    (by intro j hne; exact absurd rfl hne)
    (le_refl alo) (le_refl blo) (show alo + 0 ≤ alo by omega)
    (show blo + 0 ≤ bhi by omega)
  unfold dpPhase
  exact ⟨h.1, h.2.1, by omega, h.2.2.2⟩

lemma extBackward_bounds (a b : List Char) (alo blo ahi bhi : ℕ) (junkFlag : Bool)
    (best : ℕ × ℕ × ℕ)
    (h1 : alo ≤ best.1) (h2 : blo ≤ best.2.1)
    (h3 : best.1 + best.2.2 ≤ ahi) (h4 : best.2.1 + best.2.2 ≤ bhi) :
    alo ≤ (extBackward a b alo blo junkFlag best).1 ∧
    blo ≤ (extBackward a b alo blo junkFlag best).2.1 ∧
    (extBackward a b alo blo junkFlag best).1 +
      (extBackward a b alo blo junkFlag best).2.2 ≤ ahi ∧
    (extBackward a b alo blo junkFlag best).2.1 +
      (extBackward a b alo blo junkFlag best).2.2 ≤ bhi := by
  obtain ⟨bi, bj, bs⟩ := best
  simp only at h1 h2 h3 h4
  unfold extBackward
  dsimp only
  have hb := extLoop_back_bounds
    (fun d => decide (alo < bi - d) && decide (blo < bj - d) &&
      (isbjunk b (nth b (bj - d - 1)) == junkFlag) &&
      (nth a (bi - d - 1) == nth b (bj - d - 1)))
    bi bj alo blo
    (by
      intro d hPd
      simp only [Bool.and_eq_true, decide_eq_true_eq] at hPd
      exact ⟨hPd.1.1.1, hPd.1.1.2⟩)
    h1 h2 bi
  refine ⟨hb.1, hb.2.1, ?_, ?_⟩
  · have := hb.2.2.1
    omega
  · have := hb.2.2.2
    omega

lemma extForward_bounds (a b : List Char) (alo blo ahi bhi : ℕ) (junkFlag : Bool)
    (best : ℕ × ℕ × ℕ)
    (h1 : alo ≤ best.1) (h2 : blo ≤ best.2.1)
    (h3 : best.1 + best.2.2 ≤ ahi) (h4 : best.2.1 + best.2.2 ≤ bhi) :
    alo ≤ (extForward a b ahi bhi junkFlag best).1 ∧
    blo ≤ (extForward a b ahi bhi junkFlag best).2.1 ∧
    (extForward a b ahi bhi junkFlag best).1 +
      (extForward a b ahi bhi junkFlag best).2.2 ≤ ahi ∧
    (extForward a b ahi bhi junkFlag best).2.1 +
      (extForward a b ahi bhi junkFlag best).2.2 ≤ bhi := by
  obtain ⟨bi, bj, bs⟩ := best
  simp only at h1 h2 h3 h4
  unfold extForward
  dsimp only
  have hf := extLoop_fwd_bounds
    (fun d => decide (bi + bs + d < ahi) && decide (bj + bs + d < bhi) &&
      (isbjunk b (nth b (bj + bs + d)) == junkFlag) &&
      (nth a (bi + bs + d) == nth b (bj + bs + d)))
    (bi + bs) (bj + bs) ahi bhi
    (by
      intro d hPd
      simp only [Bool.and_eq_true, decide_eq_true_eq] at hPd
      exact ⟨hPd.1.1.1, hPd.1.1.2⟩)
    h3 h4 ahi
  exact ⟨h1, h2, by omega, by omega⟩

lemma flm_bounds (a b : List Char) (alo ahi blo bhi : ℕ)
    (ha : alo ≤ ahi) (hb : blo ≤ bhi) :
    alo ≤ (find_longest_match a b alo ahi blo bhi).1 ∧
    blo ≤ (find_longest_match a b alo ahi blo bhi).2.1 ∧
    (find_longest_match a b alo ahi blo bhi).1 +
      (find_longest_match a b alo ahi blo bhi).2.2 ≤ ahi ∧
    (find_longest_match a b alo ahi blo bhi).2.1 +
      (find_longest_match a b alo ahi blo bhi).2.2 ≤ bhi := by
  have h0 := dpPhase_bounds a b alo ahi blo bhi ha hb
  have s1 := extBackward_bounds a b alo blo ahi bhi false _ h0.1 h0.2.1 h0.2.2.1 h0.2.2.2
  have s2 := extForward_bounds a b alo blo ahi bhi false _ s1.1 s1.2.1 s1.2.2.1 s1.2.2.2
  have s3 := extBackward_bounds a b alo blo ahi bhi true _ s2.1 s2.2.1 s2.2.2.1 s2.2.2.2
  have s4 := extForward_bounds a b alo blo ahi bhi true _ s3.1 s3.2.1 s3.2.2.1 s3.2.2.2
  exact s4

lemma mtotal_le (a b : List Char) :
    ∀ (fuel alo ahi blo bhi : ℕ), alo ≤ ahi → blo ≤ bhi →
      mtotal a b fuel alo ahi blo bhi ≤ min (ahi - alo) (bhi - blo)
  | 0, alo, ahi, blo, bhi, ha, hb => by
    have h0 : mtotal a b 0 alo ahi blo bhi = 0 := rfl
    omega
  | Nat.succ fuel, alo, ahi, blo, bhi, ha, hb => by
    have hfb := flm_bounds a b alo ahi blo bhi ha hb
    have hm : mtotal a b (Nat.succ fuel) alo ahi blo bhi =
        (let m := find_longest_match a b alo ahi blo bhi
         let i := m.1
         let j := m.2.1
         let k := m.2.2
         if k = 0 then 0
         else
           (if alo < i ∧ blo < j then mtotal a b fuel alo i blo j else 0) + k +
           (if i + k < ahi ∧ j + k < bhi then mtotal a b fuel (i + k) ahi (j + k) bhi
            else 0)) := rfl
    rw [hm]
    dsimp only
    by_cases hk : (find_longest_match a b alo ahi blo bhi).2.2 = 0
    · rw [if_pos hk]
      omega
    · rw [if_neg hk]
      by_cases hg1 : alo < (find_longest_match a b alo ahi blo bhi).1 ∧
          blo < (find_longest_match a b alo ahi blo bhi).2.1
      · have hleft := mtotal_le a b fuel alo (find_longest_match a b alo ahi blo bhi).1
          blo (find_longest_match a b alo ahi blo bhi).2.1 (by omega) (by omega)
        rw [if_pos hg1]
        by_cases hg2 : (find_longest_match a b alo ahi blo bhi).1 +
            (find_longest_match a b alo ahi blo bhi).2.2 < ahi ∧
            (find_longest_match a b alo ahi blo bhi).2.1 +
            (find_longest_match a b alo ahi blo bhi).2.2 < bhi
        · have hright := mtotal_le a b fuel
            ((find_longest_match a b alo ahi blo bhi).1 +
              (find_longest_match a b alo ahi blo bhi).2.2) ahi
            ((find_longest_match a b alo ahi blo bhi).2.1 +
              (find_longest_match a b alo ahi blo bhi).2.2) bhi (by omega) (by omega)
          rw [if_pos hg2]
          omega
        · rw [if_neg hg2]
          omega
      · rw [if_neg hg1]
        by_cases hg2 : (find_longest_match a b alo ahi blo bhi).1 +
            (find_longest_match a b alo ahi blo bhi).2.2 < ahi ∧
            (find_longest_match a b alo ahi blo bhi).2.1 +
            (find_longest_match a b alo ahi blo bhi).2.2 < bhi
        · have hright := mtotal_le a b fuel
            ((find_longest_match a b alo ahi blo bhi).1 +
              (find_longest_match a b alo ahi blo bhi).2.2) ahi
            ((find_longest_match a b alo ahi blo bhi).2.1 +
              (find_longest_match a b alo ahi blo bhi).2.2) bhi (by omega) (by omega)
          rw [if_pos hg2]
          omega
        · rw [if_neg hg2]
          omega

lemma ratio_bounds (a b : List Char) : 0 ≤ ratio a b ∧ ratio a b ≤ 1 := by
  unfold ratio
  by_cases h0 : a.length + b.length = 0
  · rw [if_pos h0]
    norm_num
  · rw [if_neg h0]
    have hM := mtotal_le a b (a.length + b.length) 0 a.length 0 b.length
      (Nat.zero_le _) (Nat.zero_le _)
    have h2M : 2 * mtotal a b (a.length + b.length) 0 a.length 0 b.length ≤
        a.length + b.length := by omega
    have hpos : (0 : ℚ) < (a.length : ℚ) + (b.length : ℚ) := by
      have : 0 < a.length + b.length := Nat.pos_of_ne_zero h0
      exact_mod_cast this
    constructor
    · positivity
    · rw [div_le_one hpos]
      exact_mod_cast h2M

/-- Bounds of the similarity: always within the unit interval. -/
lemma sim_bounds (a b : String) : 0 ≤ sim a b ∧ sim a b ≤ 1 := by
  unfold sim
  by_cases hc : (pyLower (pyStrip a) != "" && pyLower (pyStrip b) != "") = true
  · simp only [hc, if_true]
    exact ratio_bounds _ _
  · simp only [hc]
    norm_num

lemma b2j_pairwise (b : List Char) (c : Char) : (b2j b c).Pairwise (· < ·) := by
  unfold b2j
  split
  · exact List.Pairwise.nil
  · unfold posList
    exact (List.pairwise_lt_range _).filter _

lemma jsOf_pairwise (a b : List Char) (blo bhi i : ℕ) :
    (jsOf a b blo bhi i).Pairwise (· < ·) := by
  unfold jsOf
  exact ((b2j_pairwise b (nth a i)).sublist (List.takeWhile_sublist _)).filter _

lemma mem_takeWhile_of_sorted {bhi : ℕ} :
    ∀ {l : List ℕ}, l.Pairwise (· < ·) → ∀ {x : ℕ}, x ∈ l → x < bhi →
      x ∈ l.takeWhile (fun j => decide (j < bhi)) := by
  intro l
  induction l with
  | nil => intro _ x hx; simp at hx
  | cons d ds ih =>
    intro hs x hx hlt
    rcases List.mem_cons.mp hx with rfl | hx2
    · rw [List.takeWhile_cons_of_pos (by simpa using hlt)]
      exact List.mem_cons_self _ _
    · have hdx : d < x := (List.pairwise_cons.mp hs).1 x hx2
      rw [List.takeWhile_cons_of_pos (by simp; omega)]
      exact List.mem_cons_of_mem _ (ih (List.pairwise_cons.mp hs).2 hx2 hlt)

lemma mem_jsOf {a b : List Char} {blo bhi i j : ℕ} :
    j ∈ jsOf a b blo bhi i ↔
      (isbjunk b (nth a i) = false ∧ j < b.length ∧ nth b j = nth a i ∧
       blo ≤ j ∧ j < bhi) := by
  constructor
  · intro h
    have hlow := mem_jsOf_lower h
    unfold jsOf at h
    have h1 := List.mem_filter.mp h
    have h2 : j ∈ b2j b (nth a i) := List.takeWhile_subset _ h1.1
    unfold b2j at h2
    by_cases hj : isbjunk b (nth a i) = true
    · rw [if_pos hj] at h2
      simp at h2
    · have hj2 : isbjunk b (nth a i) = false := by simpa using hj
      rw [hj2] at h2
      simp only [Bool.false_eq_true, if_false] at h2
      unfold posList at h2
      have h3 := List.mem_filter.mp h2
      refine ⟨hj2, List.mem_range.mp h3.1, by simpa using h3.2, hlow.1, hlow.2⟩
  · rintro ⟨hjunk, hlen, heq, hblo, hbhi⟩
    have hmem : j ∈ b2j b (nth a i) := by
      unfold b2j
      rw [hjunk]
      simp only [Bool.false_eq_true, if_false]
      unfold posList
      exact List.mem_filter.mpr ⟨List.mem_range.mpr hlen, by simpa using heq⟩
    unfold jsOf
    exact List.mem_filter.mpr
      ⟨mem_takeWhile_of_sorted (b2j_pairwise b (nth a i)) hmem hbhi, by simpa using hblo⟩

lemma sorted_split {l : List ℕ} (hl : l.Pairwise (· < ·)) {i : ℕ} (hi : i ∈ l) :
    ∃ l1 l2, l = l1 ++ i :: l2 ∧ (∀ x ∈ l1, x < i) ∧ (∀ x ∈ l2, i < x) := by
  rcases List.append_of_mem hi with ⟨l1, l2, rfl⟩
  have h1 := List.pairwise_append.mp hl
  refine ⟨l1, l2, rfl, ?_, ?_⟩
  · intro x hx
    exact h1.2.2 x hx i (List.mem_cons_self _ _)
  · intro x hx
    exact (List.pairwise_cons.mp h1.2.1).1 x hx

lemma kOf_jfun_eq_chain {a b : List Char} {blo bhi alo : ℕ} {c j : ℕ}
    (hm : j ∈ jsOf a b blo bhi (alo + c)) :
    kOf (jfun a b blo bhi alo c) j = chainL a b blo bhi alo c j := by
  rw [chainL.eq_def]
  dsimp only
  rw [if_pos hm]
  unfold kOf jfun
  cases c with
  | zero => cases j <;> rfl
  | succ c2 => cases j <;> rfl

lemma chain_eq_zero_of_not_mem {a b : List Char} {blo bhi alo : ℕ} {c j : ℕ}
    (hm : j ∉ jsOf a b blo bhi (alo + c)) :
    chainL a b blo bhi alo c j = 0 := by
  rw [chainL.eq_def]
  dsimp only
  rw [if_neg hm]

lemma newJ2len_eq_chain (a b : List Char) (blo bhi alo c : ℕ) :
    newJ2len (jfun a b blo bhi alo c) (jsOf a b blo bhi (alo + c)) =
      jfun a b blo bhi alo (c + 1) := by
  funext j
  unfold newJ2len
  by_cases hm : j ∈ jsOf a b blo bhi (alo + c)
  · rw [if_pos hm, kOf_jfun_eq_chain hm]
    rfl
  · rw [if_neg hm]
    exact (chain_eq_zero_of_not_mem hm).symm

lemma self_mem_at_own {t : List Char} {lo hi i x : ℕ}
    (hx : x ∈ jsOf t t lo hi i) : x ∈ jsOf t t lo hi x := by
  rw [mem_jsOf] at hx ⊢
  obtain ⟨hj, hl, he, hb1, hb2⟩ := hx
  exact ⟨he ▸ hj, hl, rfl, hb1, hb2⟩

lemma self_diag_mem_time {t : List Char} {lo hi i x : ℕ}
    (hx : x ∈ jsOf t t lo hi i) (h1 : lo ≤ i) (h2 : i < hi) (h3 : hi ≤ t.length) :
    i ∈ jsOf t t lo hi i := by
  rw [mem_jsOf] at hx ⊢
  exact ⟨hx.1, by omega, rfl, h1, h2⟩

lemma chain_self_le_diag (t : List Char) (lo hi : ℕ) (hlen : hi ≤ t.length) :
    ∀ (d j : ℕ), lo + d < hi →
      chainL t t lo hi lo d j ≤ chainL t t lo hi lo d (lo + d)
  | 0, j, h => by
    by_cases hm : j ∈ jsOf t t lo hi (lo + 0)
    · have hdm : lo + 0 ∈ jsOf t t lo hi (lo + 0) :=
        self_diag_mem_time hm (by omega) (by omega) hlen
      have hval1 : chainL t t lo hi lo 0 j = 1 := by
        rw [chainL.eq_def]
        dsimp only
        rw [if_pos hm]
      have hval2 : chainL t t lo hi lo 0 (lo + 0) = 1 := by
        rw [chainL.eq_def]
        dsimp only
        rw [if_pos hdm]
      omega
    · rw [chain_eq_zero_of_not_mem hm]
      exact Nat.zero_le _
  | Nat.succ d2, j, h => by
    by_cases hm : j ∈ jsOf t t lo hi (lo + Nat.succ d2)
    · have hdm : lo + Nat.succ d2 ∈ jsOf t t lo hi (lo + Nat.succ d2) :=
        self_diag_mem_time hm (by omega) h hlen
      have hRHS : chainL t t lo hi lo (Nat.succ d2) (lo + Nat.succ d2) =
          chainL t t lo hi lo d2 (lo + d2) + 1 := by
        rw [chainL.eq_def]
        dsimp only
        rw [if_pos hdm]
        rfl
      cases j with
      | zero =>
        have hLHS : chainL t t lo hi lo (Nat.succ d2) 0 = 1 := by
          rw [chainL.eq_def]
          dsimp only
          rw [if_pos hm]
        omega
      | succ j2 =>
        have hLHS : chainL t t lo hi lo (Nat.succ d2) (j2 + 1) =
            chainL t t lo hi lo d2 j2 + 1 := by
          rw [chainL.eq_def]
          dsimp only
          rw [if_pos hm]
        have hIH := chain_self_le_diag t lo hi hlen d2 j2 (by omega)
        omega
    · rw [chain_eq_zero_of_not_mem hm]
      exact Nat.zero_le _

lemma chain_self_le_past (t : List Char) (lo hi : ℕ) (hlen : hi ≤ t.length) :
    ∀ (d j : ℕ), lo ≤ j → j < lo + d →
      chainL t t lo hi lo d j ≤ chainL t t lo hi lo (j - lo) j
  | 0, j, hj1, hj2 => by omega
  | Nat.succ d2, j, hj1, hj2 => by
    by_cases hm : j ∈ jsOf t t lo hi (lo + Nat.succ d2)
    · have hown : j ∈ jsOf t t lo hi j := self_mem_at_own hm
      cases j with
      | zero =>
        have hlo0 : lo = 0 := by omega
        subst hlo0
        have hLHS : chainL t t 0 hi 0 (Nat.succ d2) 0 = 1 := by
          rw [chainL.eq_def]
          dsimp only
          rw [if_pos hm]
        have hRHS : chainL t t 0 hi 0 (0 - 0) 0 = 1 := by
          rw [chainL.eq_def]
          dsimp only
          rw [if_pos hown]
        omega
      | succ j2 =>
        have hLHS : chainL t t lo hi lo (Nat.succ d2) (j2 + 1) =
            chainL t t lo hi lo d2 j2 + 1 := by
          rw [chainL.eq_def]
          dsimp only
          rw [if_pos hm]
        by_cases hj2lo : lo ≤ j2
        · have hIH := chain_self_le_past t lo hi hlen d2 j2 hj2lo (by omega)
          have hsub : j2 + 1 - lo = Nat.succ (j2 - lo) := by omega
          have hmem2 : j2 + 1 ∈ jsOf t t lo hi (lo + Nat.succ (j2 - lo)) := by
            rw [show lo + Nat.succ (j2 - lo) = j2 + 1 by omega]
            exact hown
          have hRHS : chainL t t lo hi lo (j2 + 1 - lo) (j2 + 1) =
              chainL t t lo hi lo (j2 - lo) j2 + 1 := by
            rw [hsub, chainL.eq_def]
            dsimp only
            rw [if_pos hmem2]
          omega
        · have hz : chainL t t lo hi lo d2 j2 = 0 := by
            apply chain_eq_zero_of_not_mem
            intro hmm
            have := (mem_jsOf.mp hmm).2.2.2.1
            omega
          have hmem0 : j2 + 1 ∈ jsOf t t lo hi (lo + 0) := by
            rw [show lo + 0 = j2 + 1 by omega]
            exact hown
          have hRHS : chainL t t lo hi lo (j2 + 1 - lo) (j2 + 1) = 1 := by
            rw [show j2 + 1 - lo = 0 by omega, chainL.eq_def]
            dsimp only
            rw [if_pos hmem0]
          omega
    · rw [chain_eq_zero_of_not_mem hm]
      exact Nat.zero_le _

lemma dpInner_append (j2len : ℕ → ℕ) (i : ℕ) (l1 l2 : List ℕ) (best : ℕ × ℕ × ℕ) :
    dpInner j2len i (l1 ++ l2) best = dpInner j2len i l2 (dpInner j2len i l1 best) := by
  unfold dpInner
  rw [List.foldl_append]

lemma dpInner_cons (j2len : ℕ → ℕ) (i j : ℕ) (js : List ℕ) (best : ℕ × ℕ × ℕ) :
    dpInner j2len i (j :: js) best =
      dpInner j2len i js (if best.2.2 < kOf j2len j
        then (i + 1 - kOf j2len j, j + 1 - kOf j2len j, kOf j2len j) else best) := by
  unfold dpInner
  simp only [List.foldl_cons]

lemma dpInner_no_update (j2len : ℕ → ℕ) (i : ℕ) :
    ∀ (js : List ℕ) (best : ℕ × ℕ × ℕ),
      (∀ j ∈ js, kOf j2len j ≤ best.2.2) → dpInner j2len i js best = best
  | [], _, _ => rfl
  | j :: rest, best, h => by
    rw [dpInner_cons]
    have hj := h j (List.mem_cons_self _ _)
    rw [if_neg (by omega)]
    exact dpInner_no_update j2len i rest best (fun x hx => h x (List.mem_cons_of_mem _ hx))

lemma dpInner_self (t : List Char) (lo hi : ℕ) (hlen : hi ≤ t.length) (c : ℕ)
    (hc : lo + c < hi) (p s : ℕ)
    (hdom : ∀ e, e < c → chainL t t lo hi lo e (lo + e) ≤ s) :
    dpInner (jfun t t lo hi lo c) (lo + c) (jsOf t t lo hi (lo + c)) (p, p, s) =
      (if s < chainL t t lo hi lo c (lo + c)
       then (lo + c + 1 - chainL t t lo hi lo c (lo + c),
             lo + c + 1 - chainL t t lo hi lo c (lo + c),
             chainL t t lo hi lo c (lo + c))
       else (p, p, s)) := by
  by_cases hne : jsOf t t lo hi (lo + c) = []
  · have hkd : chainL t t lo hi lo c (lo + c) = 0 :=
      chain_eq_zero_of_not_mem (by rw [hne]; simp)
    rw [hne, hkd]
    rw [if_neg (by omega)]
    rfl
  · obtain ⟨j0, hj0⟩ := List.exists_mem_of_ne_nil _ hne
    have hidm : lo + c ∈ jsOf t t lo hi (lo + c) :=
      self_diag_mem_time hj0 (by omega) hc hlen
    obtain ⟨l1, l2, hsplit, hl1, hl2⟩ :=
      sorted_split (jsOf_pairwise t t lo hi (lo + c)) hidm
    have hsub : ∀ x ∈ jsOf t t lo hi (lo + c), x < lo + c →
        kOf (jfun t t lo hi lo c) x ≤ s := by
      intro x hx hxlt
      rw [kOf_jfun_eq_chain hx]
      have hx1 : lo ≤ x := (mem_jsOf.mp hx).2.2.2.1
      have h2 := chain_self_le_past t lo hi hlen c x hx1 hxlt
      have h3 := hdom (x - lo) (by omega)
      rw [show lo + (x - lo) = x by omega] at h3
      omega
    have hsup : ∀ x ∈ jsOf t t lo hi (lo + c), lo + c < x →
        kOf (jfun t t lo hi lo c) x ≤ chainL t t lo hi lo c (lo + c) := by
      intro x hx _
      rw [kOf_jfun_eq_chain hx]
      exact chain_self_le_diag t lo hi hlen c x hc
    have hkd : kOf (jfun t t lo hi lo c) (lo + c) = chainL t t lo hi lo c (lo + c) :=
      kOf_jfun_eq_chain hidm
    have hmem1 : ∀ x ∈ l1, x ∈ jsOf t t lo hi (lo + c) := by
      intro x hx
      rw [hsplit]
      exact List.mem_append.mpr (Or.inl hx)
    have hmem2 : ∀ x ∈ l2, x ∈ jsOf t t lo hi (lo + c) := by
      intro x hx
      rw [hsplit]
      exact List.mem_append.mpr (Or.inr (List.mem_cons_of_mem _ hx))
    rw [hsplit, dpInner_append, dpInner_cons]
    have h1 : dpInner (jfun t t lo hi lo c) (lo + c) l1 (p, p, s) = (p, p, s) :=
      dpInner_no_update _ _ l1 _ (fun x hx => hsub x (hmem1 x hx) (hl1 x hx))
    rw [h1, hkd]
    dsimp only
    by_cases hup : s < chainL t t lo hi lo c (lo + c)
    · rw [if_pos hup]
      apply dpInner_no_update
      intro x hx
      have := hsup x (hmem2 x hx) (hl2 x hx)
      simpa using this
    · rw [if_neg hup]
      apply dpInner_no_update
      intro x hx
      have := hsup x (hmem2 x hx) (hl2 x hx)
      have h3 : kOf (jfun t t lo hi lo c) x ≤ s := by omega
      simpa using h3

lemma dpGo_self (t : List Char) (lo hi : ℕ) (hlen : hi ≤ t.length) :
    ∀ (count c p s : ℕ),
      lo + c + count ≤ hi →
      (∀ e, e < c → chainL t t lo hi lo e (lo + e) ≤ s) →
      ∃ p2 s2,
        (dpGo t t lo hi count (lo + c) (jfun t t lo hi lo c, (p, p, s))).2 =
          (p2, p2, s2) ∧
        s ≤ s2 ∧ (∀ e, e < c + count → chainL t t lo hi lo e (lo + e) ≤ s2) ∧
        (s2 = s → p2 = p)
  | 0, c, p, s, hcnt, hdom =>
    ⟨p, s, rfl, le_refl s, fun e he => hdom e (by omega), fun _ => rfl⟩
  | Nat.succ n, c, p, s, hcnt, hdom => by
    have hstep : dpGo t t lo hi (Nat.succ n) (lo + c) (jfun t t lo hi lo c, (p, p, s)) =
        dpGo t t lo hi n (lo + c + 1)
          (newJ2len (jfun t t lo hi lo c) (jsOf t t lo hi (lo + c)),
           dpInner (jfun t t lo hi lo c) (lo + c) (jsOf t t lo hi (lo + c)) (p, p, s)) := rfl
    rw [hstep, newJ2len_eq_chain, dpInner_self t lo hi hlen c (by omega) p s hdom]
    by_cases hup : s < chainL t t lo hi lo c (lo + c)
    · rw [if_pos hup]
      obtain ⟨p2, s2, heq, hle, hdm, hst⟩ := dpGo_self t lo hi hlen n (c + 1)
        (lo + c + 1 - chainL t t lo hi lo c (lo + c))
        (chainL t t lo hi lo c (lo + c)) (by omega)
        (fun e he => by
          by_cases hec : e < c
          · exact le_trans (hdom e hec) (le_of_lt hup)
          · have heqe : e = c := by omega
            subst heqe
            exact le_refl _)
      refine ⟨p2, s2, heq, by omega, fun e he => hdm e (by omega), ?_⟩
      intro h2
      omega
    · rw [if_neg hup]
      obtain ⟨p2, s2, heq, hle, hdm, hst⟩ := dpGo_self t lo hi hlen n (c + 1) p s
        (by omega)
        (fun e he => by
          by_cases hec : e < c
          · exact hdom e hec
          · have heqe : e = c := by omega
            subst heqe
            omega)
      exact ⟨p2, s2, heq, hle, fun e he => hdm e (by omega), hst⟩

lemma dpPhase_self (t : List Char) (lo hi : ℕ) (hlo : lo ≤ hi) (hlen : hi ≤ t.length) :
    ∃ p s, dpPhase t t lo hi lo hi = (p, p, s) ∧ (s = 0 → p = lo) := by
  obtain ⟨p2, s2, heq, _, _, hst⟩ := dpGo_self t lo hi hlen (hi - lo) 0 lo 0 (by omega)
    (fun e he => absurd he (Nat.not_lt_zero e))
  exact ⟨p2, s2, heq, hst⟩

lemma extBackward_diag (t : List Char) (lo : ℕ) (junkFlag : Bool) (p s : ℕ) :
    ∃ d, extBackward t t lo lo junkFlag (p, p, s) = (p - d, p - d, s + d) :=
  ⟨_, rfl⟩

lemma extForward_diag (t : List Char) (hi : ℕ) (junkFlag : Bool) (p s : ℕ) :
    ∃ d, extForward t t hi hi junkFlag (p, p, s) = (p, p, s + d) :=
  ⟨_, rfl⟩

lemma extBackward_self_base (t : List Char) (lo : ℕ) (junkFlag : Bool) (s : ℕ) :
    extBackward t t lo lo junkFlag (lo, lo, s) = (lo, lo, s) := by
  unfold extBackward
  dsimp only
  rw [extLoop_stop]
  · simp
  · simp

lemma extForward_self_stop (t : List Char) (lo hi : ℕ)
    (hjunk : isbjunk t (nth t lo) = true) :
    extForward t t hi hi false (lo, lo, 0) = (lo, lo, 0) := by
  unfold extForward
  dsimp only
  rw [extLoop_stop]
  simp [hjunk]

lemma extForward_self_grow (t : List Char) (lo hi : ℕ) (junkFlag : Bool)
    (hlo : lo < hi) (hjunk : isbjunk t (nth t lo) = junkFlag) :
    1 ≤ (extForward t t hi hi junkFlag (lo, lo, 0)).2.2 := by
  unfold extForward
  dsimp only
  rw [Nat.zero_add]
  apply extLoop_start
  · simp [hjunk, hlo]
  · omega

lemma flm_self (t : List Char) (lo hi : ℕ) (hlo : lo < hi) (hlen : hi ≤ t.length) :
    ∃ i k, find_longest_match t t lo hi lo hi = (i, i, k) ∧ 1 ≤ k ∧
      lo ≤ i ∧ i + k ≤ hi := by
  have hb := flm_bounds t t lo hi lo hi (by omega) (by omega)
  obtain ⟨p, s, hd, hs0⟩ := dpPhase_self t lo hi (by omega) hlen
  by_cases hs : 1 ≤ s
  · obtain ⟨d1, h1⟩ := extBackward_diag t lo false p s
    obtain ⟨d2, h2⟩ := extForward_diag t hi false (p - d1) (s + d1)
    obtain ⟨d3, h3⟩ := extBackward_diag t lo true (p - d1) (s + d1 + d2)
    obtain ⟨d4, h4⟩ := extForward_diag t hi true (p - d1 - d3) (s + d1 + d2 + d3)
    have hflm : find_longest_match t t lo hi lo hi =
        (p - d1 - d3, p - d1 - d3, s + d1 + d2 + d3 + d4) := by
      unfold find_longest_match
      rw [hd, h1, h2, h3, h4]
    rw [hflm] at hb
    simp only at hb
    exact ⟨p - d1 - d3, s + d1 + d2 + d3 + d4, hflm, by omega, hb.1, hb.2.2.1⟩
  · have hs0' : s = 0 := by omega
    subst hs0'
    have hp : p = lo := hs0 rfl
    rw [hp] at hd
    have h1 : extBackward t t lo lo false (lo, lo, 0) = (lo, lo, 0) :=
      extBackward_self_base t lo false 0
    by_cases hj : isbjunk t (nth t lo) = false
    · obtain ⟨d2, h2⟩ := extForward_diag t hi false lo 0
      have hd2 : 1 ≤ d2 := by
        have hg := extForward_self_grow t lo hi false hlo hj
        rw [h2] at hg
        simpa using hg
      obtain ⟨d3, h3⟩ := extBackward_diag t lo true lo (0 + d2)
      obtain ⟨d4, h4⟩ := extForward_diag t hi true (lo - d3) (0 + d2 + d3)
      have hflm : find_longest_match t t lo hi lo hi =
          (lo - d3, lo - d3, 0 + d2 + d3 + d4) := by
        unfold find_longest_match
        rw [hd, h1, h2, h3, h4]
      rw [hflm] at hb
      simp only at hb
      exact ⟨lo - d3, 0 + d2 + d3 + d4, hflm, by omega, hb.1, hb.2.2.1⟩
    · have hj' : isbjunk t (nth t lo) = true := by
        cases hcase : isbjunk t (nth t lo) with
        | false => exact absurd hcase hj
        | true => rfl
      have h2 : extForward t t hi hi false (lo, lo, 0) = (lo, lo, 0) :=
        extForward_self_stop t lo hi hj'
      have h3 : extBackward t t lo lo true (lo, lo, 0) = (lo, lo, 0) :=
        extBackward_self_base t lo true 0
      obtain ⟨d4, h4⟩ := extForward_diag t hi true lo 0
      have hd4 : 1 ≤ d4 := by
        have hg := extForward_self_grow t lo hi true hlo hj'
        rw [h4] at hg
        simpa using hg
      have hflm : find_longest_match t t lo hi lo hi = (lo, lo, 0 + d4) := by
        unfold find_longest_match
        rw [hd, h1, h2, h3, h4]
      rw [hflm] at hb
      simp only at hb
      exact ⟨lo, 0 + d4, hflm, by omega, hb.1, hb.2.2.1⟩

lemma mtotal_self (t : List Char) :
    ∀ (fuel x y : ℕ), x < y → y ≤ t.length → y - x ≤ fuel →
      mtotal t t fuel x y x y = y - x
  | 0, x, y, hxy, _, hfuel => by omega
  | Nat.succ fuel, x, y, hxy, hlen, hfuel => by
    obtain ⟨i, k, hflm, hk1, hxi, hik⟩ := flm_self t x y hxy hlen
    have hm : mtotal t t (Nat.succ fuel) x y x y =
        (let m := find_longest_match t t x y x y
         let i := m.1
         let j := m.2.1
         let k := m.2.2
         if k = 0 then 0
         else
           (if x < i ∧ x < j then mtotal t t fuel x i x j else 0) + k +
           (if i + k < y ∧ j + k < y then mtotal t t fuel (i + k) y (j + k) y
            else 0)) := rfl
    rw [hm]
    dsimp only
    rw [hflm]
    dsimp only
    rw [if_neg (by omega)]
    by_cases hg1 : x < i
    · rw [if_pos ⟨hg1, hg1⟩]
      rw [mtotal_self t fuel x i hg1 (by omega) (by omega)]
      by_cases hg2 : i + k < y
      · rw [if_pos ⟨hg2, hg2⟩]
        rw [mtotal_self t fuel (i + k) y hg2 hlen (by omega)]
        omega
      · rw [if_neg (by omega)]
        omega
    · rw [if_neg (by omega)]
      by_cases hg2 : i + k < y
      · rw [if_pos ⟨hg2, hg2⟩]
        rw [mtotal_self t fuel (i + k) y hg2 hlen (by omega)]
        omega
      · rw [if_neg (by omega)]
        omega

lemma ratio_self (a : List Char) (h : a ≠ []) : ratio a a = 1 := by
  have hL : 0 < a.length := List.length_pos.mpr h
  unfold ratio
  rw [if_neg (by omega)]
  rw [mtotal_self a (a.length + a.length) 0 a.length hL (le_refl _) (by omega)]
  rw [Nat.sub_zero]
  have hQ : (a.length : ℚ) ≠ 0 := Nat.cast_ne_zero.mpr (by omega)
  field_simp
  ring

set_option maxRecDepth 100000 in
set_option maxHeartbeats 4000000 in
/-- C3 counterexample: sim is not symmetric, because the autojunk
heuristic of SequenceMatcher only inspects the second sequence: against
the 200-character string abString, sim "zab" abString = 0 while
sim abString "zab" = 4/203; moreover the identical non-empty string
" " has sim " " " " = 0, not 1, because both sides are blank after
trimming. -/
theorem c3_counterexample :
    sim "zab" abString = 0 ∧
    sim abString "zab" = 4 / 203 ∧
    sim "zab" abString ≠ sim abString "zab" ∧
    sim " " " " = 0 ∧ sim " " " " ≠ 1 := by
  have h1 : sim "zab" abString = 2 * ((0 : ℕ) : ℚ) / (((3 : ℕ) : ℚ) + ((200 : ℕ) : ℚ)) :=
    sim_eval "zab" abString 0 3 200 (by decide) (by decide) (by decide)
      (by decide) (by decide)
  have h2 : sim abString "zab" = 2 * ((2 : ℕ) : ℚ) / (((200 : ℕ) : ℚ) + ((3 : ℕ) : ℚ)) :=
    sim_eval abString "zab" 2 200 3 (by decide) (by decide) (by decide)
      (by decide) (by decide)
  have h3 : sim " " " " = 0 := by
    have hs : pyLower (pyStrip " ") = "" := by decide
    simp [sim, hs]
  refine ⟨by rw [h1]; norm_num, by rw [h2]; norm_num, by rw [h1, h2]; norm_num,
    h3, by rw [h3]; norm_num⟩

/-- C3 amended: sim always lies in [0,1]; it is 0 whenever either input
is blank after trimming (and lowering); and it is 1 whenever the two
inputs agree after trimming and case folding and are then non-empty.
Symmetry, however, does not hold in general. -/
theorem c3_amended (a b : String) :
    (0 ≤ sim a b ∧ sim a b ≤ 1) ∧
    ((pyLower (pyStrip a) = "" ∨ pyLower (pyStrip b) = "") → sim a b = 0) ∧
    (pyLower (pyStrip a) = pyLower (pyStrip b) → pyLower (pyStrip a) ≠ "" →
      sim a b = 1) := by
  refine ⟨sim_bounds a b, ?_, ?_⟩
  · intro h
    cases h with
    | inl h1 => simp [sim, h1]
    | inr h2 => simp [sim, h2]
  · intro heq hne
    have hnil : (pyLower (pyStrip a)).toList ≠ [] := fun hn => hne (String.ext hn)
    have hb : (pyLower (pyStrip a) != "" && pyLower (pyStrip a) != "") = true := by
      simp [bne_iff_ne, hne]
    simp only [sim]
    rw [← heq, if_pos hb]
    exact ratio_self _ hnil

/-- Concrete instance of the amended C3: matching up to case and outer
whitespace scores 1, a blank scores 0 against anything. -/
theorem c3_witness :
    sim " Jane DOE " "jane doe" = 1 ∧ sim "   " "x" = 0 :=
  ⟨(c3_amended " Jane DOE " "jane doe").2.2 (by decide) (by decide),
   (c3_amended "   " "x").2.1 (Or.inl (by decide))⟩

end SignSheet
